import Mathlib

/-!
Kinect calibration (`kinect_calibration/src/calibrate.cpp`).

A shallow embedding of the calibration and registration pipeline of
`calibrate.cpp`, and theorems about it.

Conventions of the embedding:

* `double` and `float` values are rationals (`ℚ`): arithmetic is exact.
* A conversion `(int)x` truncates toward zero and is undefined (`none`) when
  the truncated value is not an `int`; a division by zero is undefined too,
  since the quotient is then infinite or not a number and cannot be converted.
* An image is a function from the linear pixel index to the pixel value; a
  `uint16_t` store keeps the value modulo `65536`.
* Calls into OpenCV (image decoding, corner detection, sub-pixel refinement)
  are parameters of the functions that use them.
-/

namespace Calibrate

/-! ## Constants and small helpers -/

/-- Image height, `#define ROWS 480`. -/
def ROWS : Nat := 480

/-- Image width, `#define COLS 640`. -/
def COLS : Nat := 640

/-- The constant `#define SHIFT_SCALE 0.125`. -/
def SHIFT_SCALE : ℚ := 1 / 8

/-- Smallest value of a 32-bit `int`. -/
def INT_MIN : Int := -2147483648

/-- Largest value of a 32-bit `int`. -/
def INT_MAX : Int := 2147483647

/-- Truncation toward zero, the rounding of a floating to integer conversion. -/
def truncate (x : ℚ) : Int := if 0 ≤ x then ⌊x⌋ else ⌈x⌉

/-- The conversion `(int)x`: truncation toward zero, undefined out of range. -/
def castInt (x : ℚ) : Option Int :=
  if INT_MIN ≤ truncate x ∧ truncate x ≤ INT_MAX then some (truncate x) else none

/-- The function `shift2disp`: `SHIFT_SCALE*(double)(shift_offset - shift)`. -/
def shift2disp (shift : Int) (shift_offset : ℚ) : ℚ :=
  SHIFT_SCALE * (shift_offset - (shift : ℚ))

/-! ## Depth colourisation -/

/-- The value `v * 6 * 256` computed for entry `i` of the gamma table, before it
is stored: `float v = i / 2048.0; v = powf (v, 3) * 6;`. -/
def gammaValue (i : Nat) : ℚ :=
  let v : ℚ := (i : ℚ) / 2048
  let v : ℚ := v ^ 3 * 6
  v * 6 * 256

/-- Entry `i` of the table `t_gamma` after the set-up loop: the store
`t_gamma[i] = v * 6 * 256` converts the float to `uint16_t` by truncation. -/
def t_gamma (i : Nat) : Nat := (truncate (gammaValue i)).toNat % 65536

/-- A pixel of a three-channel 8-bit image: the bytes `cptr[0]`, `cptr[1]`,
`cptr[2]`. -/
abbrev Colour := Nat × Nat × Nat

/-- The colour `setDepthColor` writes for a table value `pval`. -/
def depthColor (pval : Nat) : Colour :=
  let lb := pval % 256
  match pval / 256 with
  | 0 => (255 - lb, 255 - lb, 255)
  | 1 => (0, lb, 255)
  | 2 => (0, 255, 255 - lb)
  | 3 => (lb, 255, 0)
  | 4 => (255, 255 - lb, 0)
  | 5 => (255 - lb, 0, 0)
  | _ => (0, 0, 0)

/-- The function `setDepthColor`: the three bytes written at `cptr` for the raw
value `d`. The table has 2048 entries, so the read `t_gamma[d]` is defined only
for `d < 2048`. -/
def setDepthColor (d : Nat) : Option Colour :=
  if d < 2048 then some (depthColor (t_gamma d)) else none

/-- The entry of the gamma table as the specification words it:
`round(((i/2048)^3)*6*6*256)`. -/
def t_gamma_spec (i : Nat) : Int := round ((((i : ℚ) / 2048) ^ 3) * 6 * 6 * 256)

/-! ## The transformation chain `D = P*S*Q` -/

/-- The matrix `Q`, from `(u, v, d, 1)` of the depth camera to homogeneous XYZ:
`cptr[2]`, `cptr[5]` and `cptr[0]` are the entries `(0,2)`, `(1,2)` and `(0,0)`
of the depth camera matrix, `b` is the baseline. -/
def matQ (camMatrix : Matrix (Fin 3) (Fin 3) ℚ) (b : ℚ) : Matrix (Fin 4) (Fin 4) ℚ :=
  !![1, 0, 0, -camMatrix 0 2;
     0, 1, 0, -camMatrix 1 2;
     0, 0, 0, camMatrix 0 0;
     0, 0, 1 / b, 0]

/-- The matrix `S`, from XYZ of the depth camera to XYZ of the RGB camera. -/
def matS (R : Matrix (Fin 3) (Fin 3) ℚ) (T : Fin 3 → ℚ) : Matrix (Fin 4) (Fin 4) ℚ :=
  !![R 0 0, R 0 1, R 0 2, T 0;
     R 1 0, R 1 1, R 1 2, T 1;
     R 2 0, R 2 1, R 2 2, T 2;
     0, 0, 0, 1]

/-- The matrix `P`, from XYZ to `(u, v)` in the RGB camera: `cptr[0]`, `cptr[2]`,
`cptr[4]`, `cptr[5]` of the RGB camera matrix. -/
def matP (camMatrixRGB : Matrix (Fin 3) (Fin 3) ℚ) : Matrix (Fin 3) (Fin 4) ℚ :=
  !![camMatrixRGB 0 0, 0, camMatrixRGB 0 2, 0;
     0, camMatrixRGB 1 1, camMatrixRGB 1 2, 0;
     0, 0, 1, 0]

/-- The transform `Matrix<double,3,4> D = P*S*Q`. -/
def matD (camMatrix camMatrixRGB R : Matrix (Fin 3) (Fin 3) ℚ) (T : Fin 3 → ℚ) (b : ℚ) :
    Matrix (Fin 3) (Fin 4) ℚ :=
  matP camMatrixRGB * matS R T * matQ camMatrix b

/-- A zero-skew camera matrix with focal lengths `fx`, `fy` and principal point
`(cx, cy)`. -/
def cameraMatrix (fx fy cx cy : ℚ) : Matrix (Fin 3) (Fin 3) ℚ :=
  !![fx, 0, cx;
     0, fy, cy;
     0, 0, 1]

/-- The vector `q = D*p` for `p << j,i,d,1` (here `px = j`, `py = i`). -/
def applyD (D : Matrix (Fin 3) (Fin 4) ℚ) (px py d : ℚ) : Fin 3 → ℚ :=
  D.mulVec ![px, py, d, 1]

/-- The pinhole projection of a 3D point `X` by a camera matrix `K`: the first
two components of `K * X` divided by the third. -/
def pinhole (K : Matrix (Fin 3) (Fin 3) ℚ) (X : Fin 3 → ℚ) : ℚ × ℚ :=
  ((K.mulVec X) 0 / (K.mulVec X) 2, (K.mulVec X) 1 / (K.mulVec X) 2)

/-! ## The warp loop -/

/-- The four images a frame of the warp loop produces: `imgr` (depth mapped to
the RGB image, `uint16_t`), `imgrc` (the same, colourised), `imgc` (the original
depth image colourised) and `imgdc` (RGB mapped to the depth image). -/
structure WarpImages where
  imgr : Nat → Nat
  imgrc : Nat → Colour
  imgc : Nat → Colour
  imgdc : Nat → Colour

/-- The images as allocated by `Mat::zeros`. -/
def zeroImages : WarpImages :=
  ⟨fun _ => 0, fun _ => (0, 0, 0), fun _ => (0, 0, 0), fun _ => (0, 0, 0)⟩

/-- The disparity `d` of depth pixel `k`: `shift2disp(dptr[k], B)`, set to `0`
when it is not positive. -/
def pixelDisparity (B : ℚ) (dptr : Nat → Nat) (k : Nat) : ℚ :=
  if shift2disp (dptr k : Int) B ≤ 0 then 0 else shift2disp (dptr k : Int) B

/-- The body of the warp loop at row `i`, column `j` (`k = i*COLS + j`, as `k`
is incremented together with `j`). The result is `none` when the behaviour of
the body is undefined: a conversion to `int` that is out of range or follows a
division by zero, or a read of `t_gamma` past its end. -/
def warpPixel (D : Matrix (Fin 3) (Fin 4) ℚ) (B : ℚ) (dptr : Nat → Nat)
    (rgbptr : Nat → Colour) (i j : Nat) (st : WarpImages) : Option WarpImages :=
  let k := i * COLS + j
  let d := pixelDisparity B dptr k
  let q := applyD D j i d
  if q 2 = 0 then none else
  match castInt (q 0 / q 2 + 1 / 2), castInt (q 1 / q 2 + 1 / 2), setDepthColor (dptr k) with
  | some u, some v, some c =>
    let st1 : WarpImages := { st with imgc := Function.update st.imgc k c }
    if u < 0 ∨ v < 0 ∨ u ≥ COLS ∨ v ≥ ROWS then some st1 else
    match castInt (d * 16 + 499 / 1000) with
    | none => none
    | some disp =>
      let kk := (v * COLS + u).toNat
      let st2 : WarpImages :=
        if (st1.imgr kk : Int) < disp then
          { st1 with imgr := Function.update st1.imgr kk (disp % 65536).toNat,
                     imgrc := Function.update st1.imgrc kk c }
        else st1
      let st3 : WarpImages :=
        if d ≠ 0 then { st2 with imgdc := Function.update st2.imgdc k (rgbptr kk) } else st2
      some st3
  | _, _, _ => none

/-- The inner loop `for (int j=0; j<COLS; j++,k++)` of row `i`. -/
def warpRow (D : Matrix (Fin 3) (Fin 4) ℚ) (B : ℚ) (dptr : Nat → Nat)
    (rgbptr : Nat → Colour) (i : Nat) (st : WarpImages) : Option WarpImages :=
  (List.range COLS).foldlM (fun s j => warpPixel D B dptr rgbptr i j s) st

/-- The warp of one frame: `for (int i=0; i<ROWS; i++)` over the rows, from the
zero images. -/
def warpFrame (D : Matrix (Fin 3) (Fin 4) ℚ) (B : ℚ) (dptr : Nat → Nat)
    (rgbptr : Nat → Colour) : Option WarpImages :=
  (List.range ROWS).foldlM (fun s i => warpRow D B dptr rgbptr i s) zeroImages

/-- The depth pixels of a frame in the order the loops visit them. -/
def rasterOrder : List (Nat × Nat) :=
  (List.range ROWS).flatMap (fun i => (List.range COLS).map (fun j => (i, j)))

/-- The warp loop body run over a list of depth pixels, in order. -/
def warpPixels (D : Matrix (Fin 3) (Fin 4) ℚ) (B : ℚ) (dptr : Nat → Nat)
    (rgbptr : Nat → Colour) (ps : List (Nat × Nat)) (st : WarpImages) : Option WarpImages :=
  ps.foldlM (fun s p => warpPixel D B dptr rgbptr p.1 p.2 s) st

/-- What the loop body computes for a depth pixel before it touches the images:
the colour of the raw value, and for a pixel that passes the bounds test the
RGB index `kk` and the fixed-point disparity `disp`. -/
structure PixelSample where
  colour : Colour
  target : Option (Nat × Int)

/-- The sample of depth pixel `(i, j)`, `none` when the loop body is undefined
there. It repeats the computations of `warpPixel` up to the image stores. -/
def pixelSample (D : Matrix (Fin 3) (Fin 4) ℚ) (B : ℚ) (dptr : Nat → Nat)
    (i j : Nat) : Option PixelSample :=
  let k := i * COLS + j
  let d := pixelDisparity B dptr k
  let q := applyD D j i d
  if q 2 = 0 then none else
  match castInt (q 0 / q 2 + 1 / 2), castInt (q 1 / q 2 + 1 / 2), setDepthColor (dptr k) with
  | some u, some v, some c =>
    if u < 0 ∨ v < 0 ∨ u ≥ COLS ∨ v ≥ ROWS then some ⟨c, none⟩ else
    match castInt (d * 16 + 499 / 1000) with
    | none => none
    | some disp => some ⟨c, some ((v * COLS + u).toNat, disp)⟩
  | _, _, _ => none

/-- The image stores of the loop body for a pixel with sample `s`. -/
def storeSample (rgbptr : Nat → Colour) (k : Nat) (d : ℚ) (s : PixelSample)
    (st : WarpImages) : WarpImages :=
  let st1 : WarpImages := { st with imgc := Function.update st.imgc k s.colour }
  match s.target with
  | none => st1
  | some (kk, disp) =>
    let st2 : WarpImages :=
      if (st1.imgr kk : Int) < disp then
        { st1 with imgr := Function.update st1.imgr kk (disp % 65536).toNat,
                   imgrc := Function.update st1.imgrc kk s.colour }
      else st1
    if d ≠ 0 then { st2 with imgdc := Function.update st2.imgdc k (rgbptr kk) } else st2

/-- The RGB index and fixed-point disparity of depth pixel `(i, j)`, when it
passes the bounds test. -/
def pixelTarget (D : Matrix (Fin 3) (Fin 4) ℚ) (B : ℚ) (dptr : Nat → Nat)
    (i j : Nat) : Option (Nat × Int) :=
  (pixelSample D B dptr i j).bind (fun s => s.target)

/-! ## Example inputs -/

/-- An example transform: both cameras with unit focal length and principal
point `(0, 0)`, no rotation, translation `(80, 0, 0)`, baseline `1`. -/
def exampleD : Matrix (Fin 3) (Fin 4) ℚ :=
  matD (cameraMatrix 1 1 0 0) (cameraMatrix 1 1 0 0) 1 ![80, 0, 0] 1

/-- An example shift offset, `B = 1090.1`. -/
def exampleB : ℚ := 10901 / 10

/-- An example depth image: raw value `near` at depth pixel `(0, 0)` and `1091`
(beyond the shift offset, so disparity `0`) everywhere else. -/
def exampleDepth (near : Nat) : Nat → Nat := fun k => if k = 0 then near else 1091

/-- An example rectified RGB image, black everywhere. -/
def exampleRgb : Nat → Colour := fun _ => (0, 0, 0)

/-- An example transform that does not depend on the disparity: the RGB camera
has a quarter of the focal length of the depth camera, with no rotation and no
translation, so that depth pixel `(i, j)` maps to RGB pixel `(j/4, i/4)` rounded. -/
def tieD : Matrix (Fin 3) (Fin 4) ℚ :=
  matD (cameraMatrix 1 1 0 0) (cameraMatrix (1 / 4) (1 / 4) 0 0) 1 0 1

/-- An example depth image: raw value `raw3` at depth pixel `(0, 3)` and `raw`
everywhere else. -/
def flatDepth (raw3 raw : Nat) : Nat → Nat := fun k => if k = 3 then raw3 else raw

/-! ## The depth-model fit -/

/-- The rows accumulated by the depth-model loop over the correspondence points
`(Z, r)` (actual depth, raw sensor reading): `ls_src1.push_back(Vec2d(-1.0, Z))`
and `ls_src2.push_back(Z*r)`. -/
def accumulateRows (pts : List (ℚ × Nat)) : List (ℚ × ℚ) × List ℚ :=
  pts.foldl (fun acc p => (acc.1 ++ [(-1, p.1)], acc.2 ++ [p.1 * (p.2 : ℚ)])) ([], [])

/-- The LU elimination of a `2 x 2` system whose pivot row `(a00, a01 | b0)` has
been chosen, followed by back substitution; `none` when a pivot vanishes. -/
def luEliminate (a00 a01 a10 a11 b0 b1 : ℚ) : Option (ℚ × ℚ) :=
  if a00 = 0 then none else
  let alpha := a10 * (-1 / a00)
  let a11' := a11 + alpha * a01
  let b1' := b1 + alpha * b0
  if a11' = 0 then none else
  let x1 := b1' / a11'
  let x0 := (b0 - a01 * x1) / a00
  some (x0, x1)

/-- The call `cv::solve(src1, src2, dst, DECOMP_LU | DECOMP_NORMAL)` for a
two-column `src1`. The library routine is not part of the repository; this is
its documented behaviour in exact arithmetic: it forms the normal equations
`src1ᵀ·src1 · x = src1ᵀ·src2`, solves them by LU decomposition with partial
pivoting, and returns false (`none`) when the matrix is singular, that is when a
pivot is zero. The definition stands for the solve in exact arithmetic only: the
rounding of the sums in `double`, the small epsilon the library compares the
pivot with, and its handling of an empty matrix are not modelled, so `none` here
does not say when the program's solve fails. -/
def solveNormalLU (src1 : List (ℚ × ℚ)) (src2 : List ℚ) : Option (ℚ × ℚ) :=
  let a00 := (src1.map (fun a => a.1 * a.1)).sum
  let a01 := (src1.map (fun a => a.1 * a.2)).sum
  let a10 := (src1.map (fun a => a.2 * a.1)).sum
  let a11 := (src1.map (fun a => a.2 * a.2)).sum
  let b0 := ((src1.zip src2).map (fun p => p.1.1 * p.2)).sum
  let b1 := ((src1.zip src2).map (fun p => p.1.2 * p.2)).sum
  if |a00| < |a10| then luEliminate a10 a11 a00 a01 b1 b0
  else luEliminate a00 a01 a10 a11 b0 b1

/-- The depth-model fit of `main`: the rows of all correspondence points are
solved for `(A, B)`; on success the baseline is `b = SHIFT_SCALE * A / f` with
`f` the focal length of the depth camera, and the result is `(A, B, b)`; on
failure `main` returns `1`. -/
def fitDepthModel (pts : List (ℚ × Nat)) (f : ℚ) : Except Nat (ℚ × ℚ × ℚ) :=
  match solveNormalLU (accumulateRows pts).1 (accumulateRows pts).2 with
  | some (A, B) => Except.ok (A, B, SHIFT_SCALE * A / f)
  | none => Except.error 1

/-! ## The correspondence collectors -/

/-- A 2D point, `cv::Point2f`. -/
abbrev Point2f := ℚ × ℚ

/-- A 3D point, `cv::Point3f`. -/
abbrev Point3f := ℚ × ℚ × ℚ

/-- Pixel offset from IR image to depth image,
`cv::Point2f ir_depth_offset = cv::Point2f(-4, -3)`. -/
def ir_depth_offset : Point2f := (-4, -3)

/-- The statement `corners[i] += ir_depth_offset` for one corner. -/
def addOffset (p : Point2f) : Point2f := (p.1 + ir_depth_offset.1, p.2 + ir_depth_offset.2)

/-- What a stage of `main` leaves behind: `Except.error c` when `main` returns
`c` inside the stage, `Except.ok` with the collected data otherwise. -/
abbrev Stage (α : Type) := Except Nat α

/-- The loop `while (1)` that reads the IR images `img_ir_NN.png`, from file
number `fnum` with the vectors `pats` and `points` collected so far. `imread n`
is the image decoded from file number `n` (`none` when `img.data == NULL`),
`findChessboardCorners` the corners found by the detector (`none` when it
returns false) and `cornerSubPix` the corners after refinement. The first
argument bounds the number of iterations; the result is `none` when it is used
up. -/
def collectIR {Img : Type} (imread : Nat → Option Img)
    (findChessboardCorners : Img → Option (List Point2f))
    (cornerSubPix : Img → List Point2f → List Point2f) (pat : List Point3f) :
    Nat → Nat → List (List Point3f) × List (List Point2f) →
      Option (Stage (List (List Point3f) × List (List Point2f)))
  | 0, _, _ => none
  | fuel + 1, fnum, (pats, points) =>
    match imread fnum with
    | none => some (Except.ok (pats, points))
    | some img =>
      match findChessboardCorners img with
      | none => some (Except.error 1)
      | some corners =>
        let corners := cornerSubPix img corners
        let corners := corners.map addOffset
        collectIR imread findChessboardCorners cornerSubPix pat fuel (fnum + 1)
          (pats ++ [pat], points ++ [corners])

/-- The loop `while (1)` that reads the RGB images `img_rgb_NN.png`, from file
number `fnum` with the vector `pointsRGB` collected so far; `cvtColor` is the
conversion to a grey image on which the corners are refined. -/
def collectRGB {Img : Type} (imread : Nat → Option Img)
    (findChessboardCorners : Img → Option (List Point2f)) (cvtColor : Img → Img)
    (cornerSubPix : Img → List Point2f → List Point2f) :
    Nat → Nat → List (List Point2f) → Option (Stage (List (List Point2f)))
  | 0, _, _ => none
  | fuel + 1, fnum, pointsRGB =>
    match imread fnum with
    | none => some (Except.ok pointsRGB)
    | some img =>
      match findChessboardCorners img with
      | none => some (Except.error 1)
      | some corners =>
        let gray := cvtColor img
        let corners := cornerSubPix gray corners
        collectRGB imread findChessboardCorners cvtColor cornerSubPix fuel (fnum + 1)
          (pointsRGB ++ [corners])

/-- The corners the IR stage stores for file number `n`, when the file exists
and the detector succeeds on it. -/
def storedIR {Img : Type} (imread : Nat → Option Img)
    (findChessboardCorners : Img → Option (List Point2f))
    (cornerSubPix : Img → List Point2f → List Point2f) (n : Nat) : List Point2f :=
  match imread n with
  | none => []
  | some img =>
    match findChessboardCorners img with
    | none => []
    | some corners => (cornerSubPix img corners).map addOffset

/-- The corners the RGB stage stores for file number `n`, when the file exists
and the detector succeeds on it. -/
def storedRGB {Img : Type} (imread : Nat → Option Img)
    (findChessboardCorners : Img → Option (List Point2f)) (cvtColor : Img → Img)
    (cornerSubPix : Img → List Point2f → List Point2f) (n : Nat) : List Point2f :=
  match imread n with
  | none => []
  | some img =>
    match findChessboardCorners img with
    | none => []
    | some corners => cornerSubPix (cvtColor img) corners
/-- An example image sequence: the files `0` to `4` exist (the image is its
file number), file `5` and all later ones are absent. -/
def fiveFiles : Nat → Option Nat := fun n => if n < 5 then some n else none

/-- An example image sequence in which every file exists. -/
def allFiles : Nat → Option Nat := fun n => some n

/-- An example detector that finds one corner in every image. -/
def findAlways : Nat → Option (List Point2f) := fun n => some [((n : ℚ) + 10, 20)]

/-- An example detector that fails on image `3` only. -/
def findNotThree : Nat → Option (List Point2f) :=
  fun n => if n = 3 then none else some [((n : ℚ) + 10, 20)]

/-- An example sub-pixel refinement that leaves the corners where they are. -/
def refineNone : Nat → List Point2f → List Point2f := fun _ cs => cs
/-! ## The calibration documents -/

/-- What follows the colon on a line of an output document: nothing, a fixed
text, or numbers printed from `double` arguments. -/
inductive DocValue where
  | empty : DocValue
  | text : String → DocValue
  | numbers : List ℚ → DocValue

/-- A line `key: value` of an output document, with the number of blanks in
front of the key. -/
structure DocLine where
  indent : Nat
  key : String
  value : DocValue

/-- The function `writeCalibration`: the lines the `fprintf` calls write to the
file, for the camera matrix `K` and the distortion coefficients `D` (read
through `const double *` pointers). -/
def writeCalibration (K D : Nat → ℚ) : List DocLine :=
  [ ⟨0, "image_width", DocValue.text "640"⟩,
    ⟨0, "image_height", DocValue.text "480"⟩,
    ⟨0, "camera_name", DocValue.text "kinect"⟩,
    ⟨0, "camera_matrix", DocValue.empty⟩,
    ⟨3, "rows", DocValue.text "3"⟩,
    ⟨3, "cols", DocValue.text "3"⟩,
    ⟨3, "data", DocValue.numbers [K 0, K 1, K 2, K 3, K 4, K 5, K 6, K 7, K 8]⟩,
    ⟨0, "distortion_coefficients", DocValue.empty⟩,
    ⟨3, "rows", DocValue.text "1"⟩,
    ⟨3, "cols", DocValue.text "5"⟩,
    ⟨3, "data", DocValue.numbers [D 0, D 1, D 2, D 3, D 4]⟩,
    ⟨0, "rectification_matrix", DocValue.empty⟩,
    ⟨3, "rows", DocValue.text "3"⟩,
    ⟨3, "cols", DocValue.text "3"⟩,
    ⟨3, "data", DocValue.numbers [1, 0, 0, 0, 1, 0, 0, 0, 1]⟩,
    ⟨0, "projection_matrix", DocValue.empty⟩,
    ⟨3, "rows", DocValue.text "3"⟩,
    ⟨3, "cols", DocValue.text "4"⟩,
    ⟨3, "data", DocValue.numbers [K 0, K 1, K 2, 0, K 3, K 4, K 5, 0, K 6, K 7, K 8, 0]⟩ ]

/-- The lines `main` writes to `kinect_params.yaml`, for the shift offset `B`,
the baseline `b`, the rotation `R` and the translation `T` (read through
`double *` pointers). -/
def writeKinectParams (B b : ℚ) (R T : Nat → ℚ) : List DocLine :=
  [ ⟨0, "shift_offset", DocValue.numbers [B]⟩,
    ⟨0, "projector_depth_baseline", DocValue.numbers [b]⟩,
    ⟨0, "depth_rgb_rotation",
      DocValue.numbers [R 0, R 1, R 2, R 3, R 4, R 5, R 6, R 7, R 8]⟩,
    ⟨0, "depth_rgb_translation", DocValue.numbers [T 0, T 1, T 2]⟩ ]

/-- The fields of a document: the keys of its lines that are not indented, in
order. -/
def documentFields (doc : List DocLine) : List String :=
  (doc.filter (fun l => l.indent = 0)).map (fun l => l.key)

/-- How many numbers the line with key `key` carries, for each such line that is
not indented. -/
def fieldSizes (doc : List DocLine) (key : String) : List Nat :=
  (doc.filter (fun l => l.indent = 0 ∧ l.key = key)).map (fun l =>
    match l.value with
    | DocValue.numbers xs => xs.length
    | _ => 0)

/-! ## Bounds of the depth-model read -/

/-- The rounding `cvRound` of the OpenCV conversion from `Point2f` to `Point`
(library code outside the repository, modelled from its documentation): the
nearest integer, ties to the even one. -/
def cvRound (x : ℚ) : Int :=
  if x - ⌊x⌋ < 1 / 2 then ⌊x⌋
  else if 1 / 2 < x - ⌊x⌋ then ⌊x⌋ + 1
  else if ⌊x⌋ % 2 = 0 then ⌊x⌋ else ⌊x⌋ + 1

/-- The pixel `(column, row)` read by `img_depth.at<uint16_t>(corners[j])`: the
stored corner converted from `Point2f` to `Point`. -/
def depthReadLocation (corner : Point2f) : Int × Int := (cvRound corner.1, cvRound corner.2)

/-- A pixel `(column, row)` lies inside a `COLS x ROWS` image. -/
def insideImage (p : Int × Int) : Prop :=
  0 ≤ p.1 ∧ p.1 < (COLS : Int) ∧ 0 ≤ p.2 ∧ p.2 < (ROWS : Int)

/-- An example transform for a pixel at the left edge: unit cameras, no
rotation, translation `(-24/5, 0, 0)`, baseline `1`. -/
def edgeD : Matrix (Fin 3) (Fin 4) ℚ :=
  matD (cameraMatrix 1 1 0 0) (cameraMatrix 1 1 0 0) 1 ![-24 / 5, 0, 0] 1
/-! ## The command line of `calibrate` -/

/-- A command line as `getopt(argc, argv, "r:c:s:")` presents it: the program
name `argv[0]`, the successive results of `getopt` (the option character it
returns, with `optarg`), and the arguments `argv[optind..]` left at the end. -/
structure CommandLine where
  program : String
  opts : List (Char × String)
  rest : List String

/-- The loop `while ((c = getopt(...)) != -1) switch (c)` on the values
`(crows, ccols, csize)`; `atoi` and `atof` are the C library conversions. -/
def parseOptions (atoi : String → Int) (atof : String → ℚ) (opts : List (Char × String))
    (init : Int × Int × ℚ) : Int × Int × ℚ :=
  opts.foldl (fun v o =>
    if o.1 = 'r' then (atoi o.2, v.2.1, v.2.2)
    else if o.1 = 'c' then (v.1, atoi o.2, v.2.2)
    else if o.1 = 's' then (v.1, v.2.1, atof o.2)
    else v) init

/-- The values `main` works with once the arguments are accepted. -/
structure Arguments where
  crows : Int
  ccols : Int
  csize : ℚ
  fdir : String

/-- The text printed when the arguments are not accepted. -/
def usageText (program : String) : List String :=
  ["Must give the checkerboard dimensions and data directory.", "Usage:",
    program ++ " -r ROWS -c COLS -s SQUARE_SIZE my_data_dir"]

/-- The start of `main`: option parsing, `if (optind < argc) fdir = argv[optind]`
and the test `crows == 0 || ccols == 0 || csize == 0.0 || fdir == NULL`. The
result is the text printed and either `return 1` or the accepted arguments. -/
def checkArguments (atoi : String → Int) (atof : String → ℚ) (cl : CommandLine) :
    List String × Stage Arguments :=
  let v := parseOptions atoi atof cl.opts (0, 0, 0)
  match cl.rest.head? with
  | none => (usageText cl.program, Except.error 1)
  | some fdir =>
    if v.1 = 0 ∨ v.2.1 = 0 ∨ v.2.2 = 0 then (usageText cl.program, Except.error 1)
    else ([], Except.ok ⟨v.1, v.2.1, v.2.2, fdir⟩)

/-- The planar pattern built by `main`:
`for i < ccols, for j < crows: pat.push_back(Point3f(i*csize, j*csize, 0))`. -/
def makePattern (crows ccols : Int) (csize : ℚ) : List Point3f :=
  (List.range ccols.toNat).flatMap (fun i =>
    (List.range crows.toNat).map (fun j => ((i : ℚ) * csize, (j : ℚ) * csize, 0)))

/-- The function `main` up to the end of the IR collection loop: the argument
check, then the pattern and the loop over the files of the data directory.
`imread fdir n` is the image decoded from file number `n` of directory `fdir`
and `find crows ccols` the detector for that pattern size. -/
def mainCollectIR {Img : Type} (atoi : String → Int) (atof : String → ℚ) (cl : CommandLine)
    (imread : String → Nat → Option Img) (find : Int → Int → Img → Option (List Point2f))
    (cornerSubPix : Img → List Point2f → List Point2f) (fuel : Nat) :
    List String × Option (Stage (List (List Point3f) × List (List Point2f))) :=
  match checkArguments atoi atof cl with
  | (out, Except.error c) => (out, some (Except.error c))
  | (out, Except.ok a) =>
    (out, collectIR (imread a.fdir) (find a.crows a.ccols) cornerSubPix
      (makePattern a.crows a.ccols a.csize) fuel 0 ([], []))

/-- The argument of the last option `c` on the command line, if there is one. -/
def optionValue (c : Char) (opts : List (Char × String)) : Option String :=
  ((opts.filter (fun o => o.1 = c)).getLast?).map (fun o => o.2)

/-- An integer option is missing, or its value converts to zero. -/
def missingOrZero {α : Type} [Zero α] [DecidableEq α] (conv : String → α)
    (v : Option String) : Bool :=
  match v with
  | none => true
  | some a => decide (conv a = 0)

/-! ## The capture front-end (`acquire_data.cpp`) -/

/-- The global variables of `acquire_data.cpp` that control saving. -/
structure CaptureState where
  ir_mode : Bool
  ir_num : Int
  rgb_num : Int
  depth_num : Int
  saveIR : Bool
  saveRGB : Bool
  saveDepth : Bool
  deriving DecidableEq

/-- The initial values of the global variables. -/
def initialCapture : CaptureState := ⟨false, 0, 0, 0, false, false, false⟩

/-- The function `keyPressed` on the saving state, for the keys `'i'` (toggle
the IR mode), `'s'` (save images) and `'b'` (back up the image number); the
other keys do not touch the saving state. -/
def keyPressed (key : Char) (s : CaptureState) : CaptureState :=
  let s1 : CaptureState := if key = 'i' then { s with ir_mode := !s.ir_mode } else s
  let s2 : CaptureState :=
    if key = 's' then
      (if s1.ir_mode then { s1 with saveIR := true }
       else { s1 with saveRGB := true, saveDepth := true })
    else s1
  if key = 'b' then
    (if s2.ir_mode then { s2 with ir_num := s2.ir_num - 1 }
     else { s2 with rgb_num := s2.rgb_num - 1, depth_num := s2.depth_num - 1 })
  else s2

/-- The function `depth_cb` on the saving state: with `saveDepth` set it writes
`img_depth_NN` for `NN = depth_num`, increments `depth_num` and clears the flag. -/
def depth_cb (s : CaptureState) : CaptureState :=
  if s.saveDepth then { s with depth_num := s.depth_num + 1, saveDepth := false } else s

/-- The function `rgb_cb` on the saving state, `ret` being the result of the
checkerboard detection on the frame: with `saveRGB && ret` it writes
`img_rgb_NN` for `NN = rgb_num`, increments `rgb_num` and clears the flag. -/
def rgb_cb (ret : Bool) (s : CaptureState) : CaptureState :=
  if s.saveRGB ∧ ret then { s with rgb_num := s.rgb_num + 1, saveRGB := false } else s

/-- The function `ir_cb` on the saving state, `ret` being the result of the
checkerboard detection on the frame. -/
def ir_cb (ret : Bool) (s : CaptureState) : CaptureState :=
  if s.saveIR ∧ ret then { s with ir_num := s.ir_num + 1, saveIR := false } else s

/-- What happens in the capture front-end: a key press or a frame callback. -/
inductive CaptureEvent where
  | key : Char → CaptureEvent
  | depth : CaptureEvent
  | rgb : Bool → CaptureEvent
  | ir : Bool → CaptureEvent

/-- The saving state after one event. -/
def captureStep (s : CaptureState) (e : CaptureEvent) : CaptureState :=
  match e with
  | CaptureEvent.key c => keyPressed c s
  | CaptureEvent.depth => depth_cb s
  | CaptureEvent.rgb ret => rgb_cb ret s
  | CaptureEvent.ir ret => ir_cb ret s

/-- The saving state after a sequence of events, from the initial state. -/
def captureRun (es : List CaptureEvent) : CaptureState :=
  es.foldl captureStep initialCapture
/-! ## The z-buffer invariant -/

/-- The fixed-point disparity of a pixel target, when it is at RGB index `kk`. -/
def targetAt (kk : Nat) (t : Option (Nat × Int)) : Option Int :=
  match t with
  | some (kk', disp) => if kk' = kk then some disp else none
  | none => none

/-- The fixed-point disparities of the depth pixels of `ps` that map to the RGB
index `kk`, in the order of `ps`. -/
def disparitiesAt (D : Matrix (Fin 3) (Fin 4) ℚ) (B : ℚ) (dptr : Nat → Nat)
    (ps : List (Nat × Nat)) (kk : Nat) : List Int :=
  ps.filterMap (fun p => targetAt kk (pixelTarget D B dptr p.1 p.2))

/-- The maximum of the fixed-point disparities of the depth pixels of `ps` that
map to the RGB index `kk`, and `0` when none does. -/
def maxDisparity (D : Matrix (Fin 3) (Fin 4) ℚ) (B : ℚ) (dptr : Nat → Nat)
    (ps : List (Nat × Nat)) (kk : Nat) : Int :=
  (disparitiesAt D B dptr ps kk).foldr max 0

/-! # Theorems -/

/-! ## The warp loop: general facts -/

theorem warpPixel_eq (D : Matrix (Fin 3) (Fin 4) ℚ) (B : ℚ) (dptr : Nat → Nat)
    (rgbptr : Nat → Colour) (i j : Nat) (st : WarpImages) :
    warpPixel D B dptr rgbptr i j st =
      (pixelSample D B dptr i j).map
        (fun s => storeSample rgbptr (i * COLS + j) (pixelDisparity B dptr (i * COLS + j)) s st) := by
  unfold warpPixel pixelSample
  simp only []
  by_cases h0 : applyD D j i (pixelDisparity B dptr (i * COLS + j)) 2 = 0
  · rw [if_pos h0, if_pos h0]; rfl
  · rw [if_neg h0, if_neg h0]
    cases h1 : castInt (applyD D j i (pixelDisparity B dptr (i * COLS + j)) 0 /
        applyD D j i (pixelDisparity B dptr (i * COLS + j)) 2 + 1 / 2) with
    | none => rfl
    | some u =>
      cases h2 : castInt (applyD D j i (pixelDisparity B dptr (i * COLS + j)) 1 /
          applyD D j i (pixelDisparity B dptr (i * COLS + j)) 2 + 1 / 2) with
      | none => rfl
      | some v =>
        cases h3 : setDepthColor (dptr (i * COLS + j)) with
        | none => rfl
        | some c =>
          simp only []
          by_cases h4 : u < 0 ∨ v < 0 ∨ u ≥ COLS ∨ v ≥ ROWS
          · rw [if_pos h4, if_pos h4]; rfl
          · rw [if_neg h4, if_neg h4]
            cases h5 : castInt (pixelDisparity B dptr (i * COLS + j) * 16 + 499 / 1000) with
            | none => rfl
            | some disp => rfl

theorem warpPixels_nil (D : Matrix (Fin 3) (Fin 4) ℚ) (B : ℚ) (dptr : Nat → Nat)
    (rgbptr : Nat → Colour) (st : WarpImages) :
    warpPixels D B dptr rgbptr [] st = some st := rfl

theorem warpPixels_cons (D : Matrix (Fin 3) (Fin 4) ℚ) (B : ℚ) (dptr : Nat → Nat)
    (rgbptr : Nat → Colour) (p : Nat × Nat) (ps : List (Nat × Nat)) (st : WarpImages) :
    warpPixels D B dptr rgbptr (p :: ps) st =
      (warpPixel D B dptr rgbptr p.1 p.2 st).bind (warpPixels D B dptr rgbptr ps) := by
  simp [warpPixels, List.foldlM_cons]

theorem warpPixels_append (D : Matrix (Fin 3) (Fin 4) ℚ) (B : ℚ) (dptr : Nat → Nat)
    (rgbptr : Nat → Colour) (ps qs : List (Nat × Nat)) (st : WarpImages) :
    warpPixels D B dptr rgbptr (ps ++ qs) st =
      (warpPixels D B dptr rgbptr ps st).bind (warpPixels D B dptr rgbptr qs) := by
  simp [warpPixels, List.foldlM_append]

theorem warpRow_eq (D : Matrix (Fin 3) (Fin 4) ℚ) (B : ℚ) (dptr : Nat → Nat)
    (rgbptr : Nat → Colour) (i : Nat) (st : WarpImages) :
    warpRow D B dptr rgbptr i st =
      warpPixels D B dptr rgbptr ((List.range COLS).map (fun j => (i, j))) st := by
  simp [warpRow, warpPixels, List.foldlM_map]

theorem warpRows_eq (D : Matrix (Fin 3) (Fin 4) ℚ) (B : ℚ) (dptr : Nat → Nat)
    (rgbptr : Nat → Colour) (rows : List Nat) (st : WarpImages) :
    rows.foldlM (fun s i => warpRow D B dptr rgbptr i s) st =
      warpPixels D B dptr rgbptr
        (rows.flatMap (fun i => (List.range COLS).map (fun j => (i, j)))) st := by
  induction rows generalizing st with
  | nil => rfl
  | cons i rows ih =>
    rw [List.foldlM_cons, List.flatMap_cons, warpPixels_append, warpRow_eq]
    cases h : warpPixels D B dptr rgbptr ((List.range COLS).map (fun j => (i, j))) st with
    | none => rfl
    | some s => simpa using ih s

/-- The two nested loops visit the depth pixels in raster order. -/
theorem warpFrame_eq (D : Matrix (Fin 3) (Fin 4) ℚ) (B : ℚ) (dptr : Nat → Nat)
    (rgbptr : Nat → Colour) :
    warpFrame D B dptr rgbptr = warpPixels D B dptr rgbptr rasterOrder zeroImages :=
  warpRows_eq D B dptr rgbptr (List.range ROWS) zeroImages

theorem mem_rasterOrder (p : Nat × Nat) : p ∈ rasterOrder ↔ p.1 < ROWS ∧ p.2 < COLS := by
  obtain ⟨i, j⟩ := p
  simp only [rasterOrder, List.mem_flatMap, List.mem_map, List.mem_range, Prod.mk.injEq]
  constructor
  · rintro ⟨a, ha, b, hb, rfl, rfl⟩
    exact ⟨ha, hb⟩
  · rintro ⟨hi, hj⟩
    exact ⟨i, hi, j, hj, rfl, rfl⟩

theorem rasterOrder_nodup : rasterOrder.Nodup := by
  unfold rasterOrder
  rw [List.nodup_flatMap]
  refine ⟨fun i _ => ?_, ?_⟩
  · exact (List.nodup_range COLS).map (fun a b h => (Prod.mk.inj h).2)
  · refine (List.nodup_range ROWS).pairwise_of_forall_ne ?_
    intro a _ b _ hab
    simp only [Function.onFun, List.disjoint_left, List.mem_map, List.mem_range]
    rintro x ⟨_, _, rfl⟩ ⟨_, _, h⟩
    exact hab (Prod.mk.inj h).1.symm

/-- A store that does not beat the stored disparity at `kk` leaves the
RGB-frame disparity image and its colourised image unchanged there. -/
theorem storeSample_keep (rgbptr : Nat → Colour) (k : Nat) (d : ℚ) (s : PixelSample)
    (st : WarpImages) (kk : Nat)
    (h : ∀ disp, s.target = some (kk, disp) → disp ≤ (st.imgr kk : Int)) :
    (storeSample rgbptr k d s st).imgr kk = st.imgr kk ∧
      (storeSample rgbptr k d s st).imgrc kk = st.imgrc kk := by
  unfold storeSample
  cases ht : s.target with
  | none => simp
  | some t =>
    obtain ⟨kk', disp⟩ := t
    by_cases hk : kk' = kk
    · subst hk
      have hle : ¬ ((st.imgr kk' : Int) < disp) := not_lt.mpr (h disp ht)
      simp only [hle, if_false]
      split_ifs <;> simp
    · have hne : kk ≠ kk' := fun e => hk e.symm
      simp only []
      split_ifs <;> simp [Function.update_noteq hne]

/-- A store that beats the stored disparity at `kk` writes its sample there. -/
theorem storeSample_write (rgbptr : Nat → Colour) (k : Nat) (d : ℚ) (s : PixelSample)
    (st : WarpImages) (kk : Nat) (disp : Int) (ht : s.target = some (kk, disp))
    (hlt : (st.imgr kk : Int) < disp) :
    (storeSample rgbptr k d s st).imgr kk = (disp % 65536).toNat ∧
      (storeSample rgbptr k d s st).imgrc kk = s.colour := by
  unfold storeSample
  simp only [ht, hlt, if_true]
  split_ifs <;> simp

theorem storeSample_lt (rgbptr : Nat → Colour) (k : Nat) (d : ℚ) (s : PixelSample)
    (st : WarpImages) (kk : Nat) (c : Int) (hc : c ≤ 65536)
    (h : ∀ disp, s.target = some (kk, disp) → disp < c) (hst : (st.imgr kk : Int) < c) :
    ((storeSample rgbptr k d s st).imgr kk : Int) < c := by
  by_cases hw : ∃ disp, s.target = some (kk, disp) ∧ (st.imgr kk : Int) < disp
  · obtain ⟨disp, ht, hlt⟩ := hw
    rw [(storeSample_write rgbptr k d s st kk disp ht hlt).1]
    have h0 : (0 : Int) ≤ disp := le_trans (Int.natCast_nonneg _) hlt.le
    have h1 : disp < c := h disp ht
    have h2 : disp % 65536 = disp := Int.emod_eq_of_lt h0 (by omega)
    rw [h2, Int.toNat_of_nonneg h0]
    exact h1
  · rw [(storeSample_keep rgbptr k d s st kk ?_).1]
    · exact hst
    · intro disp ht
      by_contra hlt
      exact hw ⟨disp, ht, not_le.mp hlt⟩

theorem warpPixel_some (D : Matrix (Fin 3) (Fin 4) ℚ) (B : ℚ) (dptr : Nat → Nat)
    (rgbptr : Nat → Colour) (i j : Nat) (st st' : WarpImages)
    (h : warpPixel D B dptr rgbptr i j st = some st') :
    ∃ s, pixelSample D B dptr i j = some s ∧
      st' = storeSample rgbptr (i * COLS + j) (pixelDisparity B dptr (i * COLS + j)) s st := by
  rw [warpPixel_eq] at h
  cases hs : pixelSample D B dptr i j with
  | none => rw [hs] at h; exact absurd h (by simp)
  | some s =>
    rw [hs] at h
    exact ⟨s, rfl, (Option.some.inj h).symm⟩

theorem pixelTarget_of_sample (D : Matrix (Fin 3) (Fin 4) ℚ) (B : ℚ) (dptr : Nat → Nat)
    (i j : Nat) (s : PixelSample) (h : pixelSample D B dptr i j = some s) :
    pixelTarget D B dptr i j = s.target := by
  simp [pixelTarget, h]

/-- Pixels that do not beat the stored disparity at `kk` leave the RGB-frame
disparity image and its colourised image unchanged there. -/
theorem warpPixels_keep (D : Matrix (Fin 3) (Fin 4) ℚ) (B : ℚ) (dptr : Nat → Nat)
    (rgbptr : Nat → Colour) (kk : Nat) (ps : List (Nat × Nat)) :
    ∀ (st st' : WarpImages), warpPixels D B dptr rgbptr ps st = some st' →
      (∀ p ∈ ps, ∀ disp, pixelTarget D B dptr p.1 p.2 = some (kk, disp) →
        disp ≤ (st.imgr kk : Int)) →
      st'.imgr kk = st.imgr kk ∧ st'.imgrc kk = st.imgrc kk := by
  induction ps with
  | nil =>
    intro st st' h _
    rw [warpPixels_nil] at h
    cases h
    exact ⟨rfl, rfl⟩
  | cons p ps ih =>
    intro st st' h hle
    rw [warpPixels_cons] at h
    cases h1 : warpPixel D B dptr rgbptr p.1 p.2 st with
    | none => rw [h1] at h; exact absurd h (by simp)
    | some st1 =>
      rw [h1] at h
      obtain ⟨s, hs, rfl⟩ := warpPixel_some D B dptr rgbptr p.1 p.2 st st1 h1
      have hk := storeSample_keep rgbptr (p.1 * COLS + p.2)
        (pixelDisparity B dptr (p.1 * COLS + p.2)) s st kk (by
          intro disp ht
          refine hle p (List.mem_cons_self _ _) disp ?_
          rw [pixelTarget_of_sample D B dptr p.1 p.2 s hs, ht])
      have := ih _ st' h (by
        intro q hq disp ht
        rw [hk.1]
        exact hle q (List.mem_cons_of_mem _ hq) disp ht)
      exact ⟨this.1.trans hk.1, this.2.trans hk.2⟩

/-- Pixels whose fixed-point disparities at `kk` are below `c` keep the stored
disparity at `kk` below `c`. -/
theorem warpPixels_lt (D : Matrix (Fin 3) (Fin 4) ℚ) (B : ℚ) (dptr : Nat → Nat)
    (rgbptr : Nat → Colour) (kk : Nat) (c : Int) (hc : c ≤ 65536) (ps : List (Nat × Nat)) :
    ∀ (st st' : WarpImages), warpPixels D B dptr rgbptr ps st = some st' →
      (∀ p ∈ ps, ∀ disp, pixelTarget D B dptr p.1 p.2 = some (kk, disp) → disp < c) →
      (st.imgr kk : Int) < c → (st'.imgr kk : Int) < c := by
  induction ps with
  | nil =>
    intro st st' h _ hst
    rw [warpPixels_nil] at h
    cases h
    exact hst
  | cons p ps ih =>
    intro st st' h hlt hst
    rw [warpPixels_cons] at h
    cases h1 : warpPixel D B dptr rgbptr p.1 p.2 st with
    | none => rw [h1] at h; exact absurd h (by simp)
    | some st1 =>
      rw [h1] at h
      obtain ⟨s, hs, rfl⟩ := warpPixel_some D B dptr rgbptr p.1 p.2 st st1 h1
      refine ih _ st' h (fun q hq => hlt q (List.mem_cons_of_mem _ hq)) ?_
      refine storeSample_lt rgbptr _ _ s st kk c hc ?_ hst
      intro disp ht
      refine hlt p (List.mem_cons_self _ _) disp ?_
      rw [pixelTarget_of_sample D B dptr p.1 p.2 s hs, ht]

/-- The warp of a list of pixels is defined when the loop body is defined at
each of them. -/
theorem warpPixels_defined (D : Matrix (Fin 3) (Fin 4) ℚ) (B : ℚ) (dptr : Nat → Nat)
    (rgbptr : Nat → Colour) (ps : List (Nat × Nat)) :
    ∀ (st : WarpImages), (∀ p ∈ ps, ∃ s, pixelSample D B dptr p.1 p.2 = some s) →
      ∃ st', warpPixels D B dptr rgbptr ps st = some st' := by
  induction ps with
  | nil => intro st _; exact ⟨st, rfl⟩
  | cons p ps ih =>
    intro st h
    obtain ⟨s, hs⟩ := h p (List.mem_cons_self _ _)
    rw [warpPixels_cons, warpPixel_eq, hs]
    exact ih _ (fun q hq => h q (List.mem_cons_of_mem _ hq))

/-- What a defined sample of depth pixel `(i, j)` consists of. -/
theorem pixelSample_some (D : Matrix (Fin 3) (Fin 4) ℚ) (B : ℚ) (dptr : Nat → Nat)
    (i j : Nat) (s : PixelSample) (h : pixelSample D B dptr i j = some s) :
    setDepthColor (dptr (i * COLS + j)) = some s.colour ∧
      ∀ kk disp, s.target = some (kk, disp) →
        castInt (pixelDisparity B dptr (i * COLS + j) * 16 + 499 / 1000) = some disp := by
  unfold pixelSample at h
  simp only [] at h
  by_cases h0 : applyD D j i (pixelDisparity B dptr (i * COLS + j)) 2 = 0
  · rw [if_pos h0] at h; exact absurd h (by simp)
  · rw [if_neg h0] at h
    cases h1 : castInt (applyD D j i (pixelDisparity B dptr (i * COLS + j)) 0 /
        applyD D j i (pixelDisparity B dptr (i * COLS + j)) 2 + 1 / 2) with
    | none => rw [h1] at h; exact absurd h (by simp)
    | some u =>
      cases h2 : castInt (applyD D j i (pixelDisparity B dptr (i * COLS + j)) 1 /
          applyD D j i (pixelDisparity B dptr (i * COLS + j)) 2 + 1 / 2) with
      | none => rw [h1, h2] at h; exact absurd h (by simp)
      | some v =>
        cases h3 : setDepthColor (dptr (i * COLS + j)) with
        | none => rw [h1, h2, h3] at h; exact absurd h (by simp)
        | some c =>
          rw [h1, h2, h3] at h
          simp only [] at h
          by_cases h4 : u < 0 ∨ v < 0 ∨ u ≥ COLS ∨ v ≥ ROWS
          · rw [if_pos h4] at h
            cases h
            exact ⟨rfl, fun kk disp ht => absurd ht (by simp)⟩
          · rw [if_neg h4] at h
            cases h5 : castInt (pixelDisparity B dptr (i * COLS + j) * 16 + 499 / 1000) with
            | none => rw [h5] at h; exact absurd h (by simp)
            | some disp =>
              rw [h5] at h
              cases h
              refine ⟨rfl, fun kk disp' ht => ?_⟩
              simp only [Option.some.injEq, Prod.mk.injEq] at ht
              rw [ht.2]

theorem pixelTarget_some (D : Matrix (Fin 3) (Fin 4) ℚ) (B : ℚ) (dptr : Nat → Nat)
    (i j kk : Nat) (disp : Int) (h : pixelTarget D B dptr i j = some (kk, disp)) :
    ∃ s, pixelSample D B dptr i j = some s ∧ s.target = some (kk, disp) ∧
      setDepthColor (dptr (i * COLS + j)) = some s.colour ∧
      castInt (pixelDisparity B dptr (i * COLS + j) * 16 + 499 / 1000) = some disp := by
  unfold pixelTarget at h
  cases hs : pixelSample D B dptr i j with
  | none => rw [hs] at h; exact absurd h (by simp)
  | some s =>
    rw [hs] at h
    have ht : s.target = some (kk, disp) := h
    have := pixelSample_some D B dptr i j s hs
    exact ⟨s, rfl, ht, this.1, this.2 kk disp ht⟩

theorem castInt_some (x : ℚ) (t : Int) (h : castInt x = some t) : t = truncate x := by
  unfold castInt at h
  split_ifs at h
  exact (Option.some.inj h).symm

theorem truncate_of_nonneg (x : ℚ) (h : 0 ≤ x) : truncate x = ⌊x⌋ := by
  simp [truncate, h]

theorem pixelDisparity_nonneg (B : ℚ) (dptr : Nat → Nat) (k : Nat) :
    0 ≤ pixelDisparity B dptr k := by
  unfold pixelDisparity
  split_ifs with h
  · exact le_refl _
  · exact (not_le.mp h).le

/-- The fixed-point disparity of a depth pixel, when its conversion is defined,
is the floor of `16*d + 0.499`. -/
theorem fixed_eq_floor (B : ℚ) (dptr : Nat → Nat) (k : Nat) (disp : Int)
    (h : castInt (pixelDisparity B dptr k * 16 + 499 / 1000) = some disp) :
    disp = ⌊pixelDisparity B dptr k * 16 + 499 / 1000⌋ := by
  rw [castInt_some _ _ h, truncate_of_nonneg]
  have := pixelDisparity_nonneg B dptr k
  positivity

/-- Two depth pixels with disparities `d1 < d2` have fixed-point disparities
`disp1 < disp2`, provided `disp2` is at least `1`. -/
theorem fixed_lt_of_disparity_lt (B : ℚ) (dptr : Nat → Nat) (k1 k2 : Nat) (disp1 disp2 : Int)
    (h1 : castInt (pixelDisparity B dptr k1 * 16 + 499 / 1000) = some disp1)
    (h2 : castInt (pixelDisparity B dptr k2 * 16 + 499 / 1000) = some disp2)
    (hd : pixelDisparity B dptr k1 < pixelDisparity B dptr k2) (hpos : 1 ≤ disp2) :
    disp1 < disp2 := by
  have e1 := fixed_eq_floor B dptr k1 disp1 h1
  have e2 := fixed_eq_floor B dptr k2 disp2 h2
  by_cases hz : shift2disp (dptr k1 : Int) B ≤ 0
  · have hd1 : pixelDisparity B dptr k1 = 0 := by simp [pixelDisparity, hz]
    have : disp1 = 0 := by
      rw [e1, hd1, Int.floor_eq_iff]
      norm_num
    omega
  · have hd1 : pixelDisparity B dptr k1 = shift2disp (dptr k1 : Int) B := by
      simp [pixelDisparity, hz]
    have hz2 : ¬ shift2disp (dptr k2 : Int) B ≤ 0 := by
      intro hz2
      have hd2 : pixelDisparity B dptr k2 = 0 := by simp [pixelDisparity, hz2]
      rw [hd2] at hd
      exact absurd (pixelDisparity_nonneg B dptr k1) (not_le.mpr hd)
    have hd2 : pixelDisparity B dptr k2 = shift2disp (dptr k2 : Int) B := by
      simp [pixelDisparity, hz2]
    rw [hd1, hd2] at hd
    have hraw : ((dptr k2 : Int) : ℚ) < ((dptr k1 : Int) : ℚ) := by
      unfold shift2disp SHIFT_SCALE at hd
      linarith
    have hraw' : (dptr k2 : Int) + 1 ≤ (dptr k1 : Int) := by
      have : (dptr k2 : Int) < (dptr k1 : Int) := by exact_mod_cast hraw
      omega
    have hraw'' : ((dptr k2 : Int) : ℚ) + 1 ≤ ((dptr k1 : Int) : ℚ) := by exact_mod_cast hraw'
    have hstep : pixelDisparity B dptr k1 * 16 + 499 / 1000 + 2 ≤
        pixelDisparity B dptr k2 * 16 + 499 / 1000 := by
      rw [hd1, hd2]
      unfold shift2disp SHIFT_SCALE
      linarith
    have hfl : ⌊pixelDisparity B dptr k1 * 16 + 499 / 1000⌋ + 2 ≤
        ⌊pixelDisparity B dptr k2 * 16 + 499 / 1000⌋ := by
      have := Int.floor_le_floor hstep
      rw [show pixelDisparity B dptr k1 * 16 + 499 / 1000 + 2 =
        pixelDisparity B dptr k1 * 16 + 499 / 1000 + ((2 : Int) : ℚ) by norm_num,
        Int.floor_add_int] at this
      exact this
    omega

/-- C1 (amended): in the warp of a frame, let two depth pixels `p1`, `p2` map to
the same in-bounds RGB index `kk` with disparities `d1 < d2`, let the fixed-point
disparity `disp2 = (int)(16*d2 + 0.499)` of the nearer one be at least `1` and
fit in 16 bits, and let every third pixel that maps to `kk` have a smaller
fixed-point disparity. Then after the frame the RGB-frame disparity image holds
`disp2` at `kk` and its colourised image holds the colour of the raw value of
`p2`, whichever of the two pixels is visited first. -/
theorem occlusion_nearer_sample_stored (D : Matrix (Fin 3) (Fin 4) ℚ) (B : ℚ)
    (dptr : Nat → Nat) (rgbptr : Nat → Colour) (st' : WarpImages) (p1 p2 : Nat × Nat)
    (kk : Nat) (disp1 disp2 : Int)
    (hrun : warpFrame D B dptr rgbptr = some st')
    (hp2 : p2 ∈ rasterOrder)
    (ht1 : pixelTarget D B dptr p1.1 p1.2 = some (kk, disp1))
    (ht2 : pixelTarget D B dptr p2.1 p2.2 = some (kk, disp2))
    (hd : pixelDisparity B dptr (p1.1 * COLS + p1.2) < pixelDisparity B dptr (p2.1 * COLS + p2.2))
    (hfix : 1 ≤ disp2 ∧ disp2 < 65536)
    (hthird : ∀ p ∈ rasterOrder, p ≠ p1 → p ≠ p2 → ∀ disp,
      pixelTarget D B dptr p.1 p.2 = some (kk, disp) → disp < disp2) :
    (st'.imgr kk : Int) = disp2 ∧
      setDepthColor (dptr (p2.1 * COLS + p2.2)) = some (st'.imgrc kk) := by
  obtain ⟨s1, -, -, -, hc1⟩ := pixelTarget_some D B dptr p1.1 p1.2 kk disp1 ht1
  obtain ⟨s2, hs2, hts2, hcol2, hc2⟩ := pixelTarget_some D B dptr p2.1 p2.2 kk disp2 ht2
  have h12 : disp1 < disp2 := fixed_lt_of_disparity_lt B dptr _ _ disp1 disp2 hc1 hc2 hd hfix.1
  -- every pixel other than `p2` loses against `p2`
  have hother : ∀ p ∈ rasterOrder, p ≠ p2 → ∀ disp,
      pixelTarget D B dptr p.1 p.2 = some (kk, disp) → disp < disp2 := by
    intro p hp hne disp ht
    by_cases hp1 : p = p1
    · subst hp1
      rw [ht1] at ht
      simp only [Option.some.injEq, Prod.mk.injEq, true_and] at ht
      rw [← ht]
      exact h12
    · exact hthird p hp hp1 hne disp ht
  obtain ⟨pre, post, hsplit⟩ := List.append_of_mem hp2
  have hnd := rasterOrder_nodup
  rw [hsplit] at hnd
  have hpre : p2 ∉ pre := fun hm =>
    (List.nodup_append.mp hnd).2.2 hm (List.mem_cons_self _ _) 
  have hpost : p2 ∉ post := (List.nodup_cons.mp (List.nodup_append.mp hnd).2.1).1
  rw [warpFrame_eq, hsplit, warpPixels_append] at hrun
  cases ha : warpPixels D B dptr rgbptr pre zeroImages with
  | none => rw [ha] at hrun; exact absurd hrun (by simp)
  | some sta =>
    rw [ha, Option.some_bind, warpPixels_cons] at hrun
    cases hb : warpPixel D B dptr rgbptr p2.1 p2.2 sta with
    | none => rw [hb] at hrun; exact absurd hrun (by simp)
    | some stb =>
      rw [hb, Option.some_bind] at hrun
      obtain ⟨s, hs, rfl⟩ := warpPixel_some D B dptr rgbptr p2.1 p2.2 sta stb hb
      rw [hs2] at hs
      cases hs
      have hlt : (sta.imgr kk : Int) < disp2 := by
        refine warpPixels_lt D B dptr rgbptr kk disp2 hfix.2.le pre zeroImages sta ha ?_ ?_
        · intro p hp disp ht
          refine hother p ?_ ?_ disp ht
          · rw [hsplit]; exact List.mem_append_left _ hp
          · rintro rfl; exact hpre hp
        · show ((0 : Nat) : Int) < disp2
          omega
      have hw := storeSample_write rgbptr (p2.1 * COLS + p2.2)
        (pixelDisparity B dptr (p2.1 * COLS + p2.2)) s2 sta kk disp2 hts2 hlt
      have hmod : (disp2 % 65536).toNat = disp2.toNat := by
        rw [Int.emod_eq_of_lt (by omega) hfix.2]
      have hk := warpPixels_keep D B dptr rgbptr kk post _ st' hrun (by
        intro p hp disp ht
        rw [hw.1, hmod, Int.toNat_of_nonneg (by omega)]
        refine (hother p ?_ ?_ disp ht).le
        · rw [hsplit]; exact List.mem_append_right _ (List.mem_cons_of_mem _ hp)
        · rintro rfl; exact hpost hp)
      refine ⟨?_, ?_⟩
      · rw [hk.1, hw.1, hmod, Int.toNat_of_nonneg (by omega)]
      · rw [hk.2, hw.2]
        exact hcol2

/-! ## The gamma table -/

theorem gammaValue_eq (i : Nat) : gammaValue i = ((9 * i ^ 3 : Nat) : ℚ) / (8388608 : Nat) := by
  unfold gammaValue
  push_cast
  ring

theorem t_gamma_eq (i : Nat) : t_gamma i = (9 * i ^ 3 / 8388608) % 65536 := by
  unfold t_gamma
  rw [truncate_of_nonneg _ (by unfold gammaValue; positivity), gammaValue_eq,
    Rat.floor_natCast_div_natCast]
  rfl

theorem t_gamma_lt (i : Nat) (h : i < 2048) : 9 * i ^ 3 / 8388608 < 65536 := by
  have h3 : i ^ 3 < 2048 ^ 3 := Nat.pow_lt_pow_left h (by norm_num)
  apply Nat.div_lt_of_lt_mul
  omega

/-- C8 (amended): the store into the gamma table truncates, so for every `i` in
`0..2047` the entry is `t_gamma[i] = floor(((i/2048)^3)*6*6*256)`; in particular
`t_gamma[0] = 0`. -/
theorem gamma_table_truncates (i : Nat) (h : i < 2048) :
    (t_gamma i : Int) = ⌊(((i : ℚ) / 2048) ^ 3) * 6 * 6 * 256⌋ ∧ t_gamma 0 = 0 := by
  constructor
  · rw [t_gamma_eq, Nat.mod_eq_of_lt (t_gamma_lt i h)]
    have : (((i : ℚ) / 2048) ^ 3) * 6 * 6 * 256 = ((9 * i ^ 3 : Nat) : ℚ) / (8388608 : Nat) := by
      push_cast
      ring
    rw [this, Rat.floor_natCast_div_natCast]
    norm_cast
  · rw [t_gamma_eq]; norm_num

/-- C8 (amended), at the last entry of the table. -/
theorem gamma_table_truncates_witness :
    (t_gamma 2047 : Int) = ⌊(((2047 : Nat) : ℚ) / 2048) ^ 3 * 6 * 6 * 256⌋ ∧ t_gamma 0 = 0 :=
  gamma_table_truncates 2047 (by decide)

/-- C8 (as stated) fails: the entries `2047` and `1000` of the table are `9202`
and `1072`, while `round(((i/2048)^3)*6*6*256)` is `9203` and `1073`. -/
theorem gamma_table_not_rounded :
    t_gamma 2047 = 9202 ∧ t_gamma_spec 2047 = 9203 ∧ t_gamma 1000 = 1072 ∧
      t_gamma_spec 1000 = 1073 := by
  refine ⟨?_, ?_, ?_, ?_⟩
  · rw [t_gamma_eq]; norm_num
  · unfold t_gamma_spec
    rw [round_eq, Int.floor_eq_iff]
    norm_num
  · rw [t_gamma_eq]; norm_num
  · unfold t_gamma_spec
    rw [round_eq, Int.floor_eq_iff]
    norm_num

/-! ## The example transform -/

theorem applyD_exampleD (px py d : ℚ) :
    applyD exampleD px py d = ![px + 80 * d, py, 1] := by
  unfold applyD exampleD matD matP matS matQ cameraMatrix
  ext k
  fin_cases k <;>
    simp [Matrix.mulVec, Matrix.dotProduct, Matrix.mul_apply, Fin.sum_univ_succ]

theorem castInt_of_floor (x : ℚ) (t : Int) (h0 : 0 ≤ x) (ht : ⌊x⌋ = t) (hr : t ≤ 2147483647) :
    castInt x = some t := by
  have hnn : 0 ≤ ⌊x⌋ := Int.floor_nonneg.mpr h0
  unfold castInt
  rw [truncate_of_nonneg x h0, ht]
  rw [ht] at hnn
  rw [if_pos]
  unfold INT_MIN INT_MAX
  omega

theorem castInt_nat_add_half (n : Nat) (h : n < 65536) :
    castInt ((n : ℚ) + 1 / 2) = some (n : Int) := by
  refine castInt_of_floor _ _ (by positivity) ?_ (by omega)
  rw [Int.floor_eq_iff]
  constructor
  · push_cast; linarith
  · push_cast; linarith

theorem toNat_index (i j : Nat) : ((i : Int) * (COLS : Nat) + (j : Int)).toNat = i * COLS + j := by
  rw [show ((i : Int) * (COLS : Nat) + (j : Int)) = ((i * COLS + j : Nat) : Int) by push_cast; ring]
  exact Int.toNat_natCast _

/-- Under the example transform a depth pixel with disparity `0` maps to the
RGB pixel with the same coordinates, with fixed-point disparity `0`. -/
theorem exampleD_sample_far (B : ℚ) (dptr : Nat → Nat) (i j : Nat) (hi : i < ROWS)
    (hj : j < COLS) (hraw : dptr (i * COLS + j) < 2048)
    (hd : pixelDisparity B dptr (i * COLS + j) = 0) :
    pixelSample exampleD B dptr i j =
      some ⟨depthColor (t_gamma (dptr (i * COLS + j))), some (i * COLS + j, 0)⟩ := by
  unfold ROWS at hi
  unfold COLS at hj
  have hu : castInt (((j : ℚ) + 80 * 0) / 1 + 1 / 2) = some (j : Int) := by
    rw [mul_zero, add_zero, div_one]
    exact castInt_nat_add_half j (by omega)
  have hv : castInt ((i : ℚ) / 1 + 1 / 2) = some (i : Int) := by
    rw [div_one]
    exact castInt_nat_add_half i (by omega)
  have hdisp : castInt ((0 : ℚ) * 16 + 499 / 1000) = some 0 := by
    refine castInt_of_floor _ _ (by norm_num) ?_ (by norm_num)
    rw [Int.floor_eq_iff]
    norm_num
  have hc : setDepthColor (dptr (i * COLS + j)) =
      some (depthColor (t_gamma (dptr (i * COLS + j)))) := by
    simp [setDepthColor, hraw]
  have hb : ¬ ((j : Int) < 0 ∨ (i : Int) < 0 ∨ (j : Int) ≥ (COLS : Nat) ∨
      (i : Int) ≥ (ROWS : Nat)) := by
    unfold COLS ROWS; omega
  unfold pixelSample
  simp only [hd, applyD_exampleD, Matrix.cons_val_zero, Matrix.cons_val_one, Matrix.head_cons,
    Matrix.cons_val_two, Matrix.tail_cons, one_ne_zero, if_false, hu, hv, hc, hdisp]
  rw [if_neg hb, toNat_index]

/-- Under the example transform the depth pixel `(0, 0)` with disparity `d`
maps to the RGB pixel `(floor(80*d + 1/2), 0)`. -/
theorem exampleD_sample_near (B : ℚ) (dptr : Nat → Nat) (u : Nat) (disp : Int)
    (hraw : dptr 0 < 2048) (hu : ⌊80 * pixelDisparity B dptr 0 + 1 / 2⌋ = (u : Int))
    (hlt : u < 640) (hdisp : ⌊pixelDisparity B dptr 0 * 16 + 499 / 1000⌋ = disp)
    (hdl : disp < 65536) :
    pixelSample exampleD B dptr 0 0 = some ⟨depthColor (t_gamma (dptr 0)), some (u, disp)⟩ := by
  have hnn := pixelDisparity_nonneg B dptr 0
  have hu' : castInt ((((0 : Nat) : ℚ) + 80 * pixelDisparity B dptr 0) / 1 + 1 / 2) =
      some (u : Int) := by
    rw [div_one, Nat.cast_zero, zero_add]
    exact castInt_of_floor _ _ (by positivity) hu (by omega)
  have hv : castInt ((((0 : Nat) : ℚ)) / 1 + 1 / 2) = some ((0 : Nat) : Int) := by
    rw [div_one]
    exact castInt_nat_add_half 0 (by omega)
  have hd' : castInt (pixelDisparity B dptr 0 * 16 + 499 / 1000) = some disp :=
    castInt_of_floor _ _ (by positivity) hdisp (by omega)
  have hc : setDepthColor (dptr 0) = some (depthColor (t_gamma (dptr 0))) := by
    simp [setDepthColor, hraw]
  have hb : ¬ ((u : Int) < 0 ∨ ((0 : Nat) : Int) < 0 ∨ (u : Int) ≥ (COLS : Nat) ∨
      ((0 : Nat) : Int) ≥ (ROWS : Nat)) := by
    unfold COLS ROWS; omega
  have hk : ((0 : Nat) : Int) * (COLS : Nat) + (u : Int) = (u : Int) := by simp
  unfold pixelSample
  simp only [Nat.zero_mul, Nat.add_zero, applyD_exampleD, Matrix.cons_val_zero,
    Matrix.cons_val_one, Matrix.head_cons, Matrix.cons_val_two, Matrix.tail_cons, one_ne_zero,
    if_false, hu', hv, hc, hd']
  rw [if_neg hb, hk, Int.toNat_natCast]

theorem exampleDepth_far (near k : Nat) (hk : k ≠ 0) :
    pixelDisparity exampleB (exampleDepth near) k = 0 := by
  unfold pixelDisparity shift2disp SHIFT_SCALE exampleB exampleDepth
  rw [if_neg hk]
  norm_num

theorem exampleDepth_near (near : Nat) (h : near ≤ 1090) :
    pixelDisparity exampleB (exampleDepth near) 0 = (10901 / 10 - (near : ℚ)) / 8 := by
  have : (near : ℚ) ≤ 1090 := by exact_mod_cast h
  unfold pixelDisparity shift2disp SHIFT_SCALE exampleB exampleDepth
  rw [if_pos rfl, if_neg]
  · push_cast; ring
  · push_cast
    rw [not_le]
    linarith

theorem index_ne_zero (p : Nat × Nat) (hp : p ∈ rasterOrder) (hne : p ≠ (0, 0)) :
    p.1 * COLS + p.2 ≠ 0 := by
  obtain ⟨i, j⟩ := p
  intro h
  simp only [COLS] at h
  apply hne
  have hi : i = 0 := by omega
  have hj : j = 0 := by omega
  rw [hi, hj]

/-- In the example frames every depth pixel other than `(0, 0)` maps to the RGB
pixel with its own index, with fixed-point disparity `0`. -/
theorem example_sample_far (near : Nat) (p : Nat × Nat) (hp : p ∈ rasterOrder)
    (hne : p ≠ (0, 0)) :
    pixelSample exampleD exampleB (exampleDepth near) p.1 p.2 =
      some ⟨depthColor (t_gamma (exampleDepth near (p.1 * COLS + p.2))),
        some (p.1 * COLS + p.2, 0)⟩ := by
  have hk := index_ne_zero p hp hne
  have hm := (mem_rasterOrder p).mp hp
  refine exampleD_sample_far exampleB (exampleDepth near) p.1 p.2 hm.1 hm.2 ?_
    (exampleDepth_far near _ hk)
  unfold exampleDepth
  rw [if_neg hk]
  norm_num

theorem example_sample_1090 :
    pixelSample exampleD exampleB (exampleDepth 1090) 0 0 =
      some ⟨depthColor (t_gamma 1090), some (1, 0)⟩ := by
  have hd := exampleDepth_near 1090 (by norm_num)
  refine exampleD_sample_near exampleB (exampleDepth 1090) 1 0 (by simp [exampleDepth]) ?_
    (by norm_num) ?_ (by norm_num)
  · rw [hd, Int.floor_eq_iff]; norm_num
  · rw [hd, Int.floor_eq_iff]; norm_num

theorem example_sample_1089 :
    pixelSample exampleD exampleB (exampleDepth 1089) 0 0 =
      some ⟨depthColor (t_gamma 1089), some (11, 2)⟩ := by
  have hd := exampleDepth_near 1089 (by norm_num)
  refine exampleD_sample_near exampleB (exampleDepth 1089) 11 2 (by simp [exampleDepth]) ?_
    (by norm_num) ?_ (by norm_num)
  · rw [hd, Int.floor_eq_iff]; norm_num
  · rw [hd, Int.floor_eq_iff]; norm_num

/-- The warp of an example frame is defined. -/
theorem example_frame_defined (near : Nat) (s0 : PixelSample)
    (h0 : pixelSample exampleD exampleB (exampleDepth near) 0 0 = some s0) :
    ∃ st', warpFrame exampleD exampleB (exampleDepth near) exampleRgb = some st' := by
  rw [warpFrame_eq]
  refine warpPixels_defined _ _ _ _ _ _ ?_
  intro p hp
  by_cases hne : p = (0, 0)
  · subst hne
    exact ⟨s0, h0⟩
  · exact ⟨_, example_sample_far near p hp hne⟩

theorem example_target_far (near : Nat) (p : Nat × Nat) (hp : p ∈ rasterOrder)
    (hne : p ≠ (0, 0)) :
    pixelTarget exampleD exampleB (exampleDepth near) p.1 p.2 =
      some (p.1 * COLS + p.2, 0) := by
  rw [pixelTarget_of_sample _ _ _ _ _ _ (example_sample_far near p hp hne)]

theorem index_eq_iff (p : Nat × Nat) (hp : p ∈ rasterOrder) (j : Nat) (hj : j < COLS)
    (h : p.1 * COLS + p.2 = j) : p = (0, j) := by
  obtain ⟨a, b⟩ := p
  have hm := (mem_rasterOrder (a, b)).mp hp
  simp only [COLS] at h hj hm
  have ha : a = 0 := by omega
  have hb : b = j := by omega
  rw [ha, hb]

/-- C1 (as stated) fails. With the example transform, shift offset `1090.1` and
raw value `1090` at depth pixel `(0, 0)`, the depth pixels `(0, 1)` (disparity
`0`) and `(0, 0)` (disparity `1/80`) both map to RGB pixel `(1, 0)` and no other
pixel does; after the frame the colourised RGB-frame disparity image is still
black there, not the colour `(146, 0, 0)` of the raw value of pixel `(0, 0)`. -/
theorem occlusion_subquantum_not_stored :
    pixelTarget exampleD exampleB (exampleDepth 1090) 0 1 = some (1, 0) ∧
    pixelTarget exampleD exampleB (exampleDepth 1090) 0 0 = some (1, 0) ∧
    pixelDisparity exampleB (exampleDepth 1090) (0 * COLS + 1) = 0 ∧
    pixelDisparity exampleB (exampleDepth 1090) (0 * COLS + 0) = 1 / 80 ∧
    (∀ p ∈ rasterOrder, p ≠ (0, 1) → p ≠ (0, 0) → ∀ disp,
      pixelTarget exampleD exampleB (exampleDepth 1090) p.1 p.2 ≠ some (1, disp)) ∧
    setDepthColor (exampleDepth 1090 (0 * COLS + 0)) = some (146, 0, 0) ∧
    ∃ st', warpFrame exampleD exampleB (exampleDepth 1090) exampleRgb = some st' ∧
      st'.imgr 1 = 0 ∧ st'.imgrc 1 = (0, 0, 0) := by
  have h01 : ((0, 1) : Nat × Nat) ∈ rasterOrder := by
    rw [mem_rasterOrder]; simp [ROWS, COLS]
  have ht0 : pixelTarget exampleD exampleB (exampleDepth 1090) 0 0 = some (1, 0) := by
    rw [pixelTarget_of_sample _ _ _ _ _ _ example_sample_1090]
  refine ⟨?_, ht0, ?_, ?_, ?_, ?_, ?_⟩
  · have := example_target_far 1090 (0, 1) h01 (by simp)
    simpa using this
  · exact exampleDepth_far 1090 _ (by simp)
  · rw [show 0 * COLS + 0 = 0 by simp, exampleDepth_near 1090 (by norm_num)]
    norm_num
  · intro p hp hp1 hp0 disp ht
    rw [example_target_far 1090 p hp hp0] at ht
    simp only [Option.some.injEq, Prod.mk.injEq] at ht
    exact hp1 (index_eq_iff p hp 1 (by simp [COLS]) ht.1)
  · simp [setDepthColor, exampleDepth, t_gamma_eq, depthColor]
  · obtain ⟨st', hst⟩ := example_frame_defined 1090 _ example_sample_1090
    refine ⟨st', hst, ?_⟩
    rw [warpFrame_eq] at hst
    refine warpPixels_keep exampleD exampleB (exampleDepth 1090) exampleRgb 1 rasterOrder
      zeroImages st' hst ?_
    intro p hp disp ht
    show disp ≤ ((0 : Nat) : Int)
    by_cases hp0 : p = (0, 0)
    · subst hp0
      rw [ht0] at ht
      simp only [Option.some.injEq, Prod.mk.injEq, true_and] at ht
      omega
    · rw [example_target_far 1090 p hp hp0] at ht
      simp only [Option.some.injEq, Prod.mk.injEq] at ht
      omega

/-- C1 (amended), on an example frame: with raw value `1089` at depth pixel
`(0, 0)` (disparity `11/80`, fixed-point `2`), which maps to RGB pixel `(11, 0)`
like depth pixel `(0, 11)` (disparity `0`), the frame ends with `2` and the
colour of raw value `1089` at RGB index `11`. -/
theorem occlusion_nearer_sample_stored_witness :
    ∃ st', warpFrame exampleD exampleB (exampleDepth 1089) exampleRgb = some st' ∧
      (st'.imgr 11 : Int) = 2 ∧
      setDepthColor (exampleDepth 1089 (0 * COLS + 0)) = some (st'.imgrc 11) := by
  obtain ⟨st', hst⟩ := example_frame_defined 1089 _ example_sample_1089
  have h011 : ((0, 11) : Nat × Nat) ∈ rasterOrder := by
    rw [mem_rasterOrder]; simp [ROWS, COLS]
  have h00 : ((0, 0) : Nat × Nat) ∈ rasterOrder := by
    rw [mem_rasterOrder]; simp [ROWS, COLS]
  refine ⟨st', hst, ?_⟩
  refine occlusion_nearer_sample_stored exampleD exampleB (exampleDepth 1089) exampleRgb st'
    (0, 11) (0, 0) 11 0 2 hst h00 ?_ ?_ ?_ (by norm_num) ?_
  · have := example_target_far 1089 (0, 11) h011 (by simp)
    simpa using this
  · rw [pixelTarget_of_sample _ _ _ _ _ _ example_sample_1089]
  · show pixelDisparity exampleB (exampleDepth 1089) (0 * COLS + 11) <
      pixelDisparity exampleB (exampleDepth 1089) (0 * COLS + 0)
    rw [exampleDepth_far 1089 _ (by simp), show 0 * COLS + 0 = 0 by simp,
      exampleDepth_near 1089 (by norm_num)]
    norm_num
  · intro p hp _ hp0 disp ht
    rw [example_target_far 1089 p hp hp0] at ht
    simp only [Option.some.injEq, Prod.mk.injEq] at ht
    omega

/-! ## Ties and invalid pixels -/

theorem storeSample_ge (rgbptr : Nat → Colour) (k : Nat) (d : ℚ) (s : PixelSample)
    (st : WarpImages) (kk : Nat) (c : Int)
    (hfit : ∀ disp, s.target = some (kk, disp) → disp < 65536)
    (hst : c ≤ (st.imgr kk : Int)) :
    c ≤ ((storeSample rgbptr k d s st).imgr kk : Int) := by
  by_cases hw : ∃ disp, s.target = some (kk, disp) ∧ (st.imgr kk : Int) < disp
  · obtain ⟨disp, ht, hlt⟩ := hw
    rw [(storeSample_write rgbptr k d s st kk disp ht hlt).1]
    have h0 : (0 : Int) ≤ disp := le_trans (Int.natCast_nonneg _) hlt.le
    rw [Int.emod_eq_of_lt h0 (hfit disp ht), Int.toNat_of_nonneg h0]
    omega
  · rw [(storeSample_keep rgbptr k d s st kk ?_).1]
    · exact hst
    · intro disp ht
      by_contra hlt
      exact hw ⟨disp, ht, not_le.mp hlt⟩

/-- While the fixed-point disparities written at `kk` fit in 16 bits, the
disparity stored at `kk` does not decrease. -/
theorem warpPixels_ge (D : Matrix (Fin 3) (Fin 4) ℚ) (B : ℚ) (dptr : Nat → Nat)
    (rgbptr : Nat → Colour) (kk : Nat) (c : Int) (ps : List (Nat × Nat)) :
    ∀ (st st' : WarpImages), warpPixels D B dptr rgbptr ps st = some st' →
      (∀ p ∈ ps, ∀ disp, pixelTarget D B dptr p.1 p.2 = some (kk, disp) → disp < 65536) →
      c ≤ (st.imgr kk : Int) → c ≤ (st'.imgr kk : Int) := by
  induction ps with
  | nil =>
    intro st st' h _ hst
    rw [warpPixels_nil] at h
    cases h
    exact hst
  | cons p ps ih =>
    intro st st' h hfit hst
    rw [warpPixels_cons] at h
    cases h1 : warpPixel D B dptr rgbptr p.1 p.2 st with
    | none => rw [h1] at h; exact absurd h (by simp)
    | some st1 =>
      rw [h1] at h
      obtain ⟨s, hs, rfl⟩ := warpPixel_some D B dptr rgbptr p.1 p.2 st st1 h1
      refine ih _ st' h (fun q hq => hfit q (List.mem_cons_of_mem _ hq)) ?_
      refine storeSample_ge rgbptr _ _ s st kk c ?_ hst
      intro disp ht
      refine hfit p (List.mem_cons_self _ _) disp ?_
      rw [pixelTarget_of_sample D B dptr p.1 p.2 s hs, ht]

/-- After the store of a pixel that maps to `kk` with a fixed-point disparity
`disp` that fits in 16 bits, the disparity stored at `kk` is at least `disp`. -/
theorem storeSample_reaches (rgbptr : Nat → Colour) (k : Nat) (d : ℚ) (s : PixelSample)
    (st : WarpImages) (kk : Nat) (disp : Int) (ht : s.target = some (kk, disp))
    (hfit : disp < 65536) :
    disp ≤ ((storeSample rgbptr k d s st).imgr kk : Int) := by
  by_cases hlt : (st.imgr kk : Int) < disp
  · rw [(storeSample_write rgbptr k d s st kk disp ht hlt).1]
    have h0 : (0 : Int) ≤ disp := le_trans (Int.natCast_nonneg _) hlt.le
    rw [Int.emod_eq_of_lt h0 hfit, Int.toNat_of_nonneg h0]
  · rw [(storeSample_keep rgbptr k d s st kk ?_).1]
    · exact not_lt.mp hlt
    · intro disp' ht'
      rw [ht] at ht'
      simp only [Option.some.injEq, Prod.mk.injEq, true_and] at ht'
      rw [← ht']
      exact not_lt.mp hlt

/-- C4 (amended): in the scan of a frame, let depth pixel `p1` be visited before
depth pixel `p2` (after the pixels `pre`, with the pixels `mid` between them),
both mapping to the same RGB index `kk` with the same fixed-point disparity
`disp`, and let the fixed-point disparities of `p1` and of the pixels visited
between them that map to `kk` fit in 16 bits. Then the store of `p2` changes
neither the RGB-frame disparity image nor its colourised image at `kk`: the
sample stored when `p2` is reached is kept. -/
theorem tie_first_writer_kept (D : Matrix (Fin 3) (Fin 4) ℚ) (B : ℚ) (dptr : Nat → Nat)
    (rgbptr : Nat → Colour) (pre mid : List (Nat × Nat)) (p1 p2 : Nat × Nat)
    (kk : Nat) (disp : Int) (sta : WarpImages)
    (ht1 : pixelTarget D B dptr p1.1 p1.2 = some (kk, disp))
    (ht2 : pixelTarget D B dptr p2.1 p2.2 = some (kk, disp))
    (hfit : ∀ p ∈ p1 :: mid, ∀ disp', pixelTarget D B dptr p.1 p.2 = some (kk, disp') →
      disp' < 65536)
    (ha : warpPixels D B dptr rgbptr (pre ++ p1 :: mid) zeroImages = some sta) :
    ∃ stb, warpPixel D B dptr rgbptr p2.1 p2.2 sta = some stb ∧
      stb.imgr kk = sta.imgr kk ∧ stb.imgrc kk = sta.imgrc kk := by
  obtain ⟨s1, hs1, hts1, -, -⟩ := pixelTarget_some D B dptr p1.1 p1.2 kk disp ht1
  obtain ⟨s2, hs2, hts2, -, -⟩ := pixelTarget_some D B dptr p2.1 p2.2 kk disp ht2
  rw [warpPixels_append] at ha
  cases h0 : warpPixels D B dptr rgbptr pre zeroImages with
  | none => rw [h0] at ha; exact absurd ha (by simp)
  | some st0 =>
    rw [h0, Option.some_bind, warpPixels_cons] at ha
    cases h1 : warpPixel D B dptr rgbptr p1.1 p1.2 st0 with
    | none => rw [h1] at ha; exact absurd ha (by simp)
    | some st1 =>
      rw [h1, Option.some_bind] at ha
      obtain ⟨s, hs, rfl⟩ := warpPixel_some D B dptr rgbptr p1.1 p1.2 st0 st1 h1
      rw [hs1] at hs
      cases hs
      have hge1 := storeSample_reaches rgbptr (p1.1 * COLS + p1.2)
        (pixelDisparity B dptr (p1.1 * COLS + p1.2)) s1 st0 kk disp hts1
        (hfit p1 (List.mem_cons_self _ _) disp ht1)
      have hge := warpPixels_ge D B dptr rgbptr kk disp mid _ sta ha
        (fun q hq => hfit q (List.mem_cons_of_mem _ hq)) hge1
      refine ⟨_, by rw [warpPixel_eq, hs2]; rfl, ?_⟩
      refine storeSample_keep rgbptr _ _ s2 sta kk ?_
      intro disp' ht'
      rw [hts2] at ht'
      simp only [Option.some.injEq, Prod.mk.injEq, true_and] at ht'
      rw [← ht']
      exact hge

/-- C5: a depth pixel whose disparity `shift_scale*(shift_offset - raw)` is not
positive gets `d = 0`; where the loop body is defined, its stores leave the
RGB-frame disparity image, the colourised RGB-frame disparity image and the
colour-mapped-into-depth-frame image unchanged, and set the colourised raw-depth
image at that pixel to the colour of its raw value. -/
theorem invalid_pixel_not_registered (D : Matrix (Fin 3) (Fin 4) ℚ) (B : ℚ)
    (dptr : Nat → Nat) (rgbptr : Nat → Colour) (i j : Nat) (st : WarpImages) (s : PixelSample)
    (hd : shift2disp (dptr (i * COLS + j) : Int) B ≤ 0)
    (hs : pixelSample D B dptr i j = some s) :
    pixelDisparity B dptr (i * COLS + j) = 0 ∧
    ∃ st', warpPixel D B dptr rgbptr i j st = some st' ∧
      st'.imgr = st.imgr ∧ st'.imgrc = st.imgrc ∧ st'.imgdc = st.imgdc ∧
      setDepthColor (dptr (i * COLS + j)) = some (st'.imgc (i * COLS + j)) := by
  have hd0 : pixelDisparity B dptr (i * COLS + j) = 0 := by simp [pixelDisparity, hd]
  have hinv := pixelSample_some D B dptr i j s hs
  refine ⟨hd0, _, by rw [warpPixel_eq, hs]; rfl, ?_⟩
  rw [hd0]
  obtain ⟨c, tgt⟩ := s
  simp only [] at hinv
  unfold storeSample
  cases tgt with
  | none => simp [hinv.1]
  | some t =>
    obtain ⟨kk, disp⟩ := t
    have hdisp := hinv.2 kk disp rfl
    rw [hd0] at hdisp
    have h0 : disp = 0 := by
      have := castInt_some _ _ hdisp
      rw [this, truncate_of_nonneg _ (by norm_num), Int.floor_eq_iff]
      norm_num
    subst h0
    have hnlt : ¬ ((st.imgr kk : Int) < 0) := by omega
    simp [hnlt, hinv.1]

/-! ## The disparity-independent example transform -/

theorem applyD_tieD (px py d : ℚ) : applyD tieD px py d = ![px / 4, py / 4, 1] := by
  unfold applyD tieD matD matP matS matQ cameraMatrix
  ext k
  fin_cases k <;>
    simp [Matrix.mulVec, Matrix.dotProduct, Matrix.mul_apply, Fin.sum_univ_succ] <;> ring

theorem castInt_quarter (n : Nat) (h : n < 65536) :
    castInt ((n : ℚ) / 4 / 1 + 1 / 2) = some (((n + 2) / 4 : Nat) : Int) := by
  refine castInt_of_floor _ _ (by positivity) ?_ (by omega)
  rw [show (n : ℚ) / 4 / 1 + 1 / 2 = ((n + 2 : Nat) : ℚ) / ((4 : Nat) : ℚ) by push_cast; ring,
    Rat.floor_natCast_div_natCast]
  norm_cast

/-- Under the disparity-independent transform depth pixel `(i, j)` maps to the
RGB index `((i+2)/4)*COLS + (j+2)/4`. -/
theorem tieD_sample (B : ℚ) (dptr : Nat → Nat) (i j : Nat) (disp : Int) (hi : i < ROWS)
    (hj : j < COLS) (hraw : dptr (i * COLS + j) < 2048)
    (hdisp : ⌊pixelDisparity B dptr (i * COLS + j) * 16 + 499 / 1000⌋ = disp)
    (hdl : disp ≤ 2147483647) :
    pixelSample tieD B dptr i j =
      some ⟨depthColor (t_gamma (dptr (i * COLS + j))),
        some ((i + 2) / 4 * COLS + (j + 2) / 4, disp)⟩ := by
  unfold ROWS at hi
  unfold COLS at hj
  have hnn := pixelDisparity_nonneg B dptr (i * COLS + j)
  have hu := castInt_quarter j (by omega)
  have hv := castInt_quarter i (by omega)
  have hd' : castInt (pixelDisparity B dptr (i * COLS + j) * 16 + 499 / 1000) = some disp :=
    castInt_of_floor _ _ (by positivity) hdisp hdl
  have hc : setDepthColor (dptr (i * COLS + j)) =
      some (depthColor (t_gamma (dptr (i * COLS + j)))) := by
    simp [setDepthColor, hraw]
  have hb : ¬ ((((j + 2) / 4 : Nat) : Int) < 0 ∨ (((i + 2) / 4 : Nat) : Int) < 0 ∨
      (((j + 2) / 4 : Nat) : Int) ≥ (COLS : Nat) ∨ (((i + 2) / 4 : Nat) : Int) ≥ (ROWS : Nat)) := by
    unfold COLS ROWS; omega
  unfold pixelSample
  simp only [applyD_tieD, Matrix.cons_val_zero, Matrix.cons_val_one, Matrix.head_cons,
    Matrix.cons_val_two, Matrix.tail_cons, one_ne_zero, if_false, hu, hv, hc, hd']
  rw [if_neg hb, toNat_index]

theorem tieD_defined (B : ℚ) (dptr : Nat → Nat) (hraw : ∀ k, dptr k < 2048)
    (hB : 0 ≤ B ∧ B ≤ 100000) (p : Nat × Nat) (hp : p ∈ rasterOrder) :
    ∃ s, pixelSample tieD B dptr p.1 p.2 = some s := by
  have hm := (mem_rasterOrder p).mp hp
  refine ⟨_, tieD_sample B dptr p.1 p.2 _ hm.1 hm.2 (hraw _) rfl ?_⟩
  have hlt : pixelDisparity B dptr (p.1 * COLS + p.2) * 16 + 499 / 1000 < 2147483647 := by
    have h1 : pixelDisparity B dptr (p.1 * COLS + p.2) ≤ B / 8 := by
      unfold pixelDisparity shift2disp SHIFT_SCALE
      have : (0 : ℚ) ≤ ((dptr (p.1 * COLS + p.2) : Int) : ℚ) := by positivity
      split_ifs
      · linarith [hB.1]
      · linarith
    linarith [hB.2]
  have := Int.floor_le (pixelDisparity B dptr (p.1 * COLS + p.2) * 16 + 499 / 1000)
  have h2 : ((⌊pixelDisparity B dptr (p.1 * COLS + p.2) * 16 + 499 / 1000⌋ : Int) : ℚ) <
      ((2147483647 : Int) : ℚ) := by
    push_cast
    linarith
  have h3 := Int.cast_lt.mp h2
  omega

theorem rasterOrder_start :
    ∃ post, rasterOrder = [(0, 0), (0, 1)] ++ (0, 2) :: ([(0, 3)] ++ (0, 4) :: post) := by
  unfold rasterOrder
  rw [show ROWS = 479 + 1 from rfl, List.range_succ_eq_map, List.flatMap_cons,
    show COLS = 5 + 635 from rfl, List.range_add, List.map_append]
  exact ⟨_, rfl⟩

theorem warpPixels_cons_some (D : Matrix (Fin 3) (Fin 4) ℚ) (B : ℚ) (dptr : Nat → Nat)
    (rgbptr : Nat → Colour) (i j : Nat) (ps : List (Nat × Nat)) (st : WarpImages)
    (s : PixelSample) (hs : pixelSample D B dptr i j = some s) :
    warpPixels D B dptr rgbptr ((i, j) :: ps) st =
      warpPixels D B dptr rgbptr ps
        (storeSample rgbptr (i * COLS + j) (pixelDisparity B dptr (i * COLS + j)) s st) := by
  rw [warpPixels_cons]
  simp only []
  rw [warpPixel_eq, hs]
  rfl

theorem flatDepth_disparity (B : ℚ) (raw3 raw k : Nat) (r : Nat)
    (hr : flatDepth raw3 raw k = r) (hlt : (r : ℚ) < B) :
    pixelDisparity B (flatDepth raw3 raw) k = (B - (r : ℚ)) / 8 := by
  unfold pixelDisparity shift2disp SHIFT_SCALE
  rw [hr, if_neg]
  · push_cast; ring
  · push_cast
    rw [not_le]
    linarith

/-- The samples of the first five depth pixels of row `0` under the
disparity-independent transform, for a depth image whose raw values are below
the shift offset. -/
theorem flat_sample (B : ℚ) (raw3 raw j r : Nat) (disp : Int) (hj : j < 5)
    (hr : flatDepth raw3 raw j = r) (hlt : (r : ℚ) < B) (h2048 : r < 2048)
    (hdisp : ⌊(B - (r : ℚ)) / 8 * 16 + 499 / 1000⌋ = disp) (hdl : disp ≤ 2147483647) :
    pixelSample tieD B (flatDepth raw3 raw) 0 j =
      some ⟨depthColor (t_gamma r), some ((j + 2) / 4, disp)⟩ := by
  have hk : 0 * COLS + j = j := by simp
  have := tieD_sample B (flatDepth raw3 raw) 0 j disp (by simp [ROWS]) (by simp [COLS]; omega)
    (by rw [hk, hr]; exact h2048)
    (by rw [hk, flatDepth_disparity B raw3 raw j r hr hlt]; exact hdisp) hdl
  rw [hk, hr] at this
  rw [this]
  simp

/-- C4 (as stated) fails when a fixed-point disparity does not fit in 16 bits.
With shift offset `33000`, raw value `2000` at depth pixel `(0, 3)` and `0`
elsewhere, the depth pixels `(0, 2)` and `(0, 4)` both map to RGB index `1` with
fixed-point disparity `66000`; when `(0, 4)` is reached the stored disparity is
`62000` (written by `(0, 3)`), and the store of `(0, 4)` replaces it by
`66000 mod 65536 = 464`. -/
theorem tie_overflow_overwrites :
    (∃ post, rasterOrder = [(0, 0), (0, 1)] ++ (0, 2) :: ([(0, 3)] ++ (0, 4) :: post)) ∧
    (∃ st', warpFrame tieD 33000 (flatDepth 2000 0) exampleRgb = some st') ∧
    pixelTarget tieD 33000 (flatDepth 2000 0) 0 2 = some (1, 66000) ∧
    pixelTarget tieD 33000 (flatDepth 2000 0) 0 4 = some (1, 66000) ∧
    ∃ sta stb,
      warpPixels tieD 33000 (flatDepth 2000 0) exampleRgb
        ([(0, 0), (0, 1)] ++ (0, 2) :: [(0, 3)]) zeroImages = some sta ∧
      warpPixel tieD 33000 (flatDepth 2000 0) exampleRgb 0 4 sta = some stb ∧
      sta.imgr 1 = 62000 ∧ stb.imgr 1 = 464 := by
  have e0 := flat_sample 33000 2000 0 0 0 66000 (by norm_num) rfl (by norm_num) (by norm_num)
    (by rw [Int.floor_eq_iff]; norm_num) (by norm_num)
  have e1 := flat_sample 33000 2000 0 1 0 66000 (by norm_num) rfl (by norm_num) (by norm_num)
    (by rw [Int.floor_eq_iff]; norm_num) (by norm_num)
  have e2 := flat_sample 33000 2000 0 2 0 66000 (by norm_num) rfl (by norm_num) (by norm_num)
    (by rw [Int.floor_eq_iff]; norm_num) (by norm_num)
  have e3 := flat_sample 33000 2000 0 3 2000 62000 (by norm_num) rfl (by norm_num) (by norm_num)
    (by rw [Int.floor_eq_iff]; norm_num) (by norm_num)
  have e4 := flat_sample 33000 2000 0 4 0 66000 (by norm_num) rfl (by norm_num) (by norm_num)
    (by rw [Int.floor_eq_iff]; norm_num) (by norm_num)
  norm_num at e0 e1 e2 e3 e4
  refine ⟨rasterOrder_start, ?_, ?_, ?_, ?_⟩
  · rw [warpFrame_eq]
    refine warpPixels_defined _ _ _ _ _ _ (fun p hp => tieD_defined 33000 _ ?_ (by norm_num) p hp)
    intro k
    unfold flatDepth
    split_ifs <;> norm_num
  · rw [pixelTarget_of_sample _ _ _ _ _ _ e2]
  · rw [pixelTarget_of_sample _ _ _ _ _ _ e4]
  · obtain ⟨X0, hX0⟩ : ∃ X, X = storeSample exampleRgb (0 * COLS + 0)
        (pixelDisparity 33000 (flatDepth 2000 0) (0 * COLS + 0))
        ⟨depthColor (t_gamma 0), some (0, 66000)⟩ zeroImages := ⟨_, rfl⟩
    obtain ⟨X1, hX1⟩ : ∃ X, X = storeSample exampleRgb (0 * COLS + 1)
        (pixelDisparity 33000 (flatDepth 2000 0) (0 * COLS + 1))
        ⟨depthColor (t_gamma 0), some (0, 66000)⟩ X0 := ⟨_, rfl⟩
    obtain ⟨X2, hX2⟩ : ∃ X, X = storeSample exampleRgb (0 * COLS + 2)
        (pixelDisparity 33000 (flatDepth 2000 0) (0 * COLS + 2))
        ⟨depthColor (t_gamma 0), some (1, 66000)⟩ X1 := ⟨_, rfl⟩
    obtain ⟨X3, hX3⟩ : ∃ X, X = storeSample exampleRgb (0 * COLS + 3)
        (pixelDisparity 33000 (flatDepth 2000 0) (0 * COLS + 3))
        ⟨depthColor (t_gamma 2000), some (1, 62000)⟩ X2 := ⟨_, rfl⟩
    obtain ⟨X4, hX4⟩ : ∃ X, X = storeSample exampleRgb (0 * COLS + 4)
        (pixelDisparity 33000 (flatDepth 2000 0) (0 * COLS + 4))
        ⟨depthColor (t_gamma 0), some (1, 66000)⟩ X3 := ⟨_, rfl⟩
    have h0 : X0.imgr 1 = 0 := by
      rw [hX0]
      exact (storeSample_keep _ _ _ _ _ 1 (by intro disp h; simp at h)).1
    have h1 : X1.imgr 1 = 0 := by
      rw [hX1, (storeSample_keep _ _ _ _ _ 1 (by intro disp h; simp at h)).1, h0]
    have h2 : X2.imgr 1 = 464 := by
      rw [hX2, (storeSample_write _ _ _ _ X1 1 66000 rfl (by rw [h1]; norm_num)).1]
      rfl
    have h3 : X3.imgr 1 = 62000 := by
      rw [hX3, (storeSample_write _ _ _ _ X2 1 62000 rfl (by rw [h2]; norm_num)).1]
      rfl
    have h4 : X4.imgr 1 = 464 := by
      rw [hX4, (storeSample_write _ _ _ _ X3 1 66000 rfl (by rw [h3]; norm_num)).1]
      rfl
    refine ⟨X3, X4, ?_, ?_, h3, h4⟩
    · rw [List.cons_append, List.cons_append, List.nil_append,
        warpPixels_cons_some tieD 33000 (flatDepth 2000 0) exampleRgb 0 0 _ _ _ e0, ← hX0,
        warpPixels_cons_some tieD 33000 (flatDepth 2000 0) exampleRgb 0 1 _ _ _ e1, ← hX1,
        warpPixels_cons_some tieD 33000 (flatDepth 2000 0) exampleRgb 0 2 _ _ _ e2, ← hX2,
        warpPixels_cons_some tieD 33000 (flatDepth 2000 0) exampleRgb 0 3 _ _ _ e3, ← hX3,
        warpPixels_nil]
    · rw [warpPixel_eq, e4, Option.map_some', ← hX4]

/-- C4 (amended), on an example frame: with shift offset `1090.1` and raw value
`1089` everywhere, the depth pixels `(0, 2)`, `(0, 3)` and `(0, 4)` all map to
RGB index `1` with fixed-point disparity `2`, and the store of `(0, 4)` leaves
the sample stored there unchanged. -/
theorem tie_first_writer_kept_witness :
    ∃ sta, warpPixels tieD exampleB (flatDepth 1089 1089) exampleRgb
        ([(0, 0), (0, 1)] ++ (0, 2) :: [(0, 3)]) zeroImages = some sta ∧
      ∃ stb, warpPixel tieD exampleB (flatDepth 1089 1089) exampleRgb 0 4 sta = some stb ∧
        stb.imgr 1 = sta.imgr 1 ∧ stb.imgrc 1 = sta.imgrc 1 := by
  have hraw : ∀ j, flatDepth 1089 1089 j = 1089 := by
    intro j; unfold flatDepth; split_ifs <;> rfl
  have e : ∀ j, j < 5 → pixelSample tieD exampleB (flatDepth 1089 1089) 0 j =
      some ⟨depthColor (t_gamma 1089), some ((j + 2) / 4, 2)⟩ := by
    intro j hj
    exact flat_sample exampleB 1089 1089 j 1089 2 hj (hraw j) (by norm_num [exampleB])
      (by norm_num) (by rw [Int.floor_eq_iff]; norm_num [exampleB]) (by norm_num)
  have t2 : pixelTarget tieD exampleB (flatDepth 1089 1089) 0 2 = some (1, 2) := by
    rw [pixelTarget_of_sample _ _ _ _ _ _ (e 2 (by norm_num))]
  have t3 : pixelTarget tieD exampleB (flatDepth 1089 1089) 0 3 = some (1, 2) := by
    rw [pixelTarget_of_sample _ _ _ _ _ _ (e 3 (by norm_num))]
  have t4 : pixelTarget tieD exampleB (flatDepth 1089 1089) 0 4 = some (1, 2) := by
    rw [pixelTarget_of_sample _ _ _ _ _ _ (e 4 (by norm_num))]
  obtain ⟨sta, hsta⟩ := warpPixels_defined tieD exampleB (flatDepth 1089 1089) exampleRgb
    ([(0, 0), (0, 1)] ++ (0, 2) :: [(0, 3)]) zeroImages (by
      intro p hp
      simp only [List.cons_append, List.nil_append, List.mem_cons, List.mem_singleton,
        List.not_mem_nil, or_false] at hp
      rcases hp with rfl | rfl | rfl | rfl
      · exact ⟨_, e 0 (by norm_num)⟩
      · exact ⟨_, e 1 (by norm_num)⟩
      · exact ⟨_, e 2 (by norm_num)⟩
      · exact ⟨_, e 3 (by norm_num)⟩)
  refine ⟨sta, hsta, ?_⟩
  refine tie_first_writer_kept tieD exampleB (flatDepth 1089 1089) exampleRgb [(0, 0), (0, 1)]
    [(0, 3)] (0, 2) (0, 4) 1 2 sta t2 t4 ?_ hsta
  intro p hp disp' ht
  simp only [List.mem_cons, List.mem_singleton, List.not_mem_nil, or_false] at hp
  rcases hp with rfl | rfl
  · rw [t2] at ht
    simp only [Option.some.injEq, Prod.mk.injEq, true_and] at ht
    omega
  · rw [t3] at ht
    simp only [Option.some.injEq, Prod.mk.injEq, true_and] at ht
    omega

/-- C5, on an example pixel: with shift offset `1090.1`, depth pixel `(0, 1)` of
the example frame has raw value `1091`, hence a negative disparity; its stores
from the zero images change none of the three registration images. -/
theorem invalid_pixel_not_registered_witness :
    shift2disp (exampleDepth 1090 (0 * COLS + 1) : Int) exampleB ≤ 0 ∧
    pixelDisparity exampleB (exampleDepth 1090) (0 * COLS + 1) = 0 ∧
    ∃ st', warpPixel exampleD exampleB (exampleDepth 1090) exampleRgb 0 1 zeroImages = some st' ∧
      st'.imgr = zeroImages.imgr ∧ st'.imgrc = zeroImages.imgrc ∧
      st'.imgdc = zeroImages.imgdc ∧
      setDepthColor (exampleDepth 1090 (0 * COLS + 1)) = some (st'.imgc (0 * COLS + 1)) := by
  have hd : shift2disp (exampleDepth 1090 (0 * COLS + 1) : Int) exampleB ≤ 0 := by
    norm_num [shift2disp, SHIFT_SCALE, exampleDepth, exampleB, COLS]
  have h01 : ((0, 1) : Nat × Nat) ∈ rasterOrder := by
    rw [mem_rasterOrder]; simp [ROWS, COLS]
  exact ⟨hd, invalid_pixel_not_registered exampleD exampleB (exampleDepth 1090) exampleRgb 0 1
    zeroImages _ hd (example_sample_far 1090 (0, 1) h01 (by simp))⟩

/-! ## The transformation chain -/

/-- The vector `D*(px, py, d, 1)` for zero-skew camera matrices, written out. -/
theorem applyD_matD (fx fy cx cy fxc fyc cxc cyc : ℚ) (R : Matrix (Fin 3) (Fin 3) ℚ)
    (T : Fin 3 → ℚ) (b px py d : ℚ) :
    applyD (matD (cameraMatrix fx fy cx cy) (cameraMatrix fxc fyc cxc cyc) R T b) px py d =
      ![fxc * (R 0 0 * (px - cx) + R 0 1 * (py - cy) + R 0 2 * fx + T 0 * (d / b)) +
          cxc * (R 2 0 * (px - cx) + R 2 1 * (py - cy) + R 2 2 * fx + T 2 * (d / b)),
        fyc * (R 1 0 * (px - cx) + R 1 1 * (py - cy) + R 1 2 * fx + T 1 * (d / b)) +
          cyc * (R 2 0 * (px - cx) + R 2 1 * (py - cy) + R 2 2 * fx + T 2 * (d / b)),
        R 2 0 * (px - cx) + R 2 1 * (py - cy) + R 2 2 * fx + T 2 * (d / b)] := by
  unfold applyD matD matP matS matQ cameraMatrix
  ext k
  fin_cases k <;>
    simp [Matrix.mulVec, Matrix.dotProduct, Matrix.mul_apply, Fin.sum_univ_succ] <;> ring

theorem pinhole_cameraMatrix (fxc fyc cxc cyc : ℚ) (X : Fin 3 → ℚ) :
    pinhole (cameraMatrix fxc fyc cxc cyc) X =
      ((fxc * X 0 + cxc * X 2) / X 2, (fyc * X 1 + cyc * X 2) / X 2) := by
  unfold pinhole cameraMatrix
  simp [Matrix.mulVec, Matrix.dotProduct, Fin.sum_univ_succ]

/-- C2 (amended): for a depth camera matrix with equal focal lengths
`fx_d = fy_d = f`, `f ≠ 0`, any zero-skew RGB camera matrix, any `R`, `T`, any
baseline `b ≠ 0` and any depth-frame point `(X, Y, Z)` with `Z ≠ 0` whose image
`R*X + T` has a non-zero third coordinate, the matrix `D = P*S*Q` applied to
`(px, py, d, 1)`, with `px = f*X/Z + cx_d`, `py = f*Y/Z + cy_d`, `d = f*b/Z`,
has a non-zero third component and, divided by it, gives the RGB pinhole
projection of `R*X + T`. -/
theorem transform_reproduces_projection (f cx cy fxc fyc cxc cyc : ℚ)
    (R : Matrix (Fin 3) (Fin 3) ℚ) (T : Fin 3 → ℚ) (b X Y Z : ℚ)
    (hf : f ≠ 0) (hb : b ≠ 0) (hZ : Z ≠ 0) (hZc : (R.mulVec ![X, Y, Z] + T) 2 ≠ 0) :
    applyD (matD (cameraMatrix f f cx cy) (cameraMatrix fxc fyc cxc cyc) R T b)
        (f * X / Z + cx) (f * Y / Z + cy) (f * b / Z) 2 ≠ 0 ∧
    (applyD (matD (cameraMatrix f f cx cy) (cameraMatrix fxc fyc cxc cyc) R T b)
        (f * X / Z + cx) (f * Y / Z + cy) (f * b / Z) 0 /
      applyD (matD (cameraMatrix f f cx cy) (cameraMatrix fxc fyc cxc cyc) R T b)
        (f * X / Z + cx) (f * Y / Z + cy) (f * b / Z) 2,
     applyD (matD (cameraMatrix f f cx cy) (cameraMatrix fxc fyc cxc cyc) R T b)
        (f * X / Z + cx) (f * Y / Z + cy) (f * b / Z) 1 /
      applyD (matD (cameraMatrix f f cx cy) (cameraMatrix fxc fyc cxc cyc) R T b)
        (f * X / Z + cx) (f * Y / Z + cy) (f * b / Z) 2) =
      pinhole (cameraMatrix fxc fyc cxc cyc) (R.mulVec ![X, Y, Z] + T) := by
  have e0 : (R.mulVec ![X, Y, Z] + T) 0 = R 0 0 * X + R 0 1 * Y + R 0 2 * Z + T 0 := by
    simp [Matrix.mulVec, Matrix.dotProduct, Fin.sum_univ_succ]; ring
  have e1 : (R.mulVec ![X, Y, Z] + T) 1 = R 1 0 * X + R 1 1 * Y + R 1 2 * Z + T 1 := by
    simp [Matrix.mulVec, Matrix.dotProduct, Fin.sum_univ_succ]; ring
  have e2 : (R.mulVec ![X, Y, Z] + T) 2 = R 2 0 * X + R 2 1 * Y + R 2 2 * Z + T 2 := by
    simp [Matrix.mulVec, Matrix.dotProduct, Fin.sum_univ_succ]; ring
  have hZc' : R 2 0 * X + R 2 1 * Y + R 2 2 * Z + T 2 ≠ 0 := by
    rw [← e2]; exact hZc
  have h2 : R 2 0 * (f * X / Z + cx - cx) + R 2 1 * (f * Y / Z + cy - cy) + R 2 2 * f +
      T 2 * (f * b / Z / b) = f / Z * (R 2 0 * X + R 2 1 * Y + R 2 2 * Z + T 2) := by
    field_simp
    ring
  have hq2 : f / Z * (R 2 0 * X + R 2 1 * Y + R 2 2 * Z + T 2) ≠ 0 :=
    mul_ne_zero (div_ne_zero hf hZ) hZc'
  rw [applyD_matD, pinhole_cameraMatrix]
  simp only [Matrix.cons_val_zero, Matrix.cons_val_one, Matrix.head_cons, Matrix.cons_val_two,
    Matrix.tail_cons]
  rw [h2]
  refine ⟨hq2, ?_⟩
  rw [e0, e1, e2]
  refine Prod.ext ?_ ?_
  · simp only []
    rw [div_eq_div_iff hq2 hZc']
    field_simp
    ring
  · simp only []
    rw [div_eq_div_iff hq2 hZc']
    field_simp
    ring

/-- C2 (amended), at a concrete calibration: unit depth camera, RGB camera with
focal length `2` and principal point `(3, 4)`, identity rotation, translation
`(1, 0, 0)`, baseline `1`, and the depth-frame point `(1, 1, 2)`. -/
theorem transform_reproduces_projection_witness :
    applyD (matD (cameraMatrix 1 1 0 0) (cameraMatrix 2 2 3 4) 1 ![1, 0, 0] 1)
        (1 * 1 / 2 + 0) (1 * 1 / 2 + 0) (1 * 1 / 2) 2 ≠ 0 ∧
    (applyD (matD (cameraMatrix 1 1 0 0) (cameraMatrix 2 2 3 4) 1 ![1, 0, 0] 1)
        (1 * 1 / 2 + 0) (1 * 1 / 2 + 0) (1 * 1 / 2) 0 /
      applyD (matD (cameraMatrix 1 1 0 0) (cameraMatrix 2 2 3 4) 1 ![1, 0, 0] 1)
        (1 * 1 / 2 + 0) (1 * 1 / 2 + 0) (1 * 1 / 2) 2,
     applyD (matD (cameraMatrix 1 1 0 0) (cameraMatrix 2 2 3 4) 1 ![1, 0, 0] 1)
        (1 * 1 / 2 + 0) (1 * 1 / 2 + 0) (1 * 1 / 2) 1 /
      applyD (matD (cameraMatrix 1 1 0 0) (cameraMatrix 2 2 3 4) 1 ![1, 0, 0] 1)
        (1 * 1 / 2 + 0) (1 * 1 / 2 + 0) (1 * 1 / 2) 2) =
      pinhole (cameraMatrix 2 2 3 4)
        ((1 : Matrix (Fin 3) (Fin 3) ℚ).mulVec ![1, 1, 2] + ![1, 0, 0]) :=
  transform_reproduces_projection 1 0 0 2 2 3 4 1 ![1, 0, 0] 1 1 1 2 (by norm_num)
    (by norm_num) (by norm_num)
    (by simp [Matrix.mulVec, Matrix.dotProduct, Fin.sum_univ_succ])

/-- C2 (as stated) fails for a depth camera with `fx_d ≠ fy_d`. With
`fx_d = 1`, `fy_d = 2`, principal points `(0, 0)`, a unit RGB camera, identity
rotation, zero translation and baseline `1`, the depth-frame point `(0, 1, 1)`
has depth pixel `(0, 2)` and disparity `1`; `D` maps it to `(0, 2)`, while the
RGB pinhole projection of the point is `(0, 1)`. -/
theorem transform_unequal_focal_lengths :
    (applyD (matD (cameraMatrix 1 2 0 0) (cameraMatrix 1 1 0 0) 1 0 1)
        (1 * 0 / 1 + 0) (2 * 1 / 1 + 0) (1 * 1 / 1) 0 /
      applyD (matD (cameraMatrix 1 2 0 0) (cameraMatrix 1 1 0 0) 1 0 1)
        (1 * 0 / 1 + 0) (2 * 1 / 1 + 0) (1 * 1 / 1) 2,
     applyD (matD (cameraMatrix 1 2 0 0) (cameraMatrix 1 1 0 0) 1 0 1)
        (1 * 0 / 1 + 0) (2 * 1 / 1 + 0) (1 * 1 / 1) 1 /
      applyD (matD (cameraMatrix 1 2 0 0) (cameraMatrix 1 1 0 0) 1 0 1)
        (1 * 0 / 1 + 0) (2 * 1 / 1 + 0) (1 * 1 / 1) 2) = (0, 2) ∧
    pinhole (cameraMatrix 1 1 0 0) ((1 : Matrix (Fin 3) (Fin 3) ℚ).mulVec ![0, 1, 1] + 0) =
      (0, 1) := by
  constructor
  · rw [applyD_matD]
    simp
  · rw [pinhole_cameraMatrix]
    simp [Matrix.mulVec, Matrix.dotProduct, Fin.sum_univ_succ]
/-! ## The depth-model fit -/

theorem accumulateRows_aux (pts : List (ℚ × Nat)) (acc : List (ℚ × ℚ) × List ℚ) :
    pts.foldl (fun acc p => (acc.1 ++ [(-1, p.1)], acc.2 ++ [p.1 * (p.2 : ℚ)])) acc =
      (acc.1 ++ pts.map (fun p => ((-1 : ℚ), p.1)),
        acc.2 ++ pts.map (fun p => p.1 * (p.2 : ℚ))) := by
  induction pts generalizing acc with
  | nil => simp
  | cons p pts ih => simp [ih]

theorem accumulateRows_eq (pts : List (ℚ × Nat)) :
    accumulateRows pts =
      (pts.map (fun p => ((-1 : ℚ), p.1)), pts.map (fun p => p.1 * (p.2 : ℚ))) := by
  unfold accumulateRows
  rw [accumulateRows_aux]
  simp

/-- The determinant `n * sum Z^2 - (sum Z)^2` of the normal matrix. -/
theorem normal_det_cons (x : ℚ) (l : List ℚ) :
    ((x :: l).length : ℚ) * ((x :: l).map (fun z => z * z)).sum - ((x :: l).sum) ^ 2 =
      ((l.length : ℚ) * (l.map (fun z => z * z)).sum - l.sum ^ 2) +
        (l.map (fun z => (x - z) ^ 2)).sum := by
  have h : (l.map (fun z => (x - z) ^ 2)).sum =
      (l.length : ℚ) * x ^ 2 - 2 * x * l.sum + (l.map (fun z => z * z)).sum := by
    induction l with
    | nil => simp
    | cons y l ih =>
      simp only [List.map_cons, List.sum_cons, List.length_cons, ih]
      push_cast
      ring
  rw [h]
  simp only [List.map_cons, List.sum_cons, List.length_cons]
  push_cast
  ring

theorem normal_det_nonneg (l : List ℚ) :
    0 ≤ (l.length : ℚ) * (l.map (fun z => z * z)).sum - l.sum ^ 2 := by
  induction l with
  | nil => simp
  | cons x l ih =>
    rw [normal_det_cons]
    have : 0 ≤ (l.map (fun z => (x - z) ^ 2)).sum :=
      List.sum_nonneg (by
        intro y hy
        obtain ⟨z, -, rfl⟩ := List.mem_map.mp hy
        positivity)
    linarith

/-- The normal matrix is singular exactly when all depths are equal. -/
theorem normal_det_eq_zero (l : List ℚ) :
    (l.length : ℚ) * (l.map (fun z => z * z)).sum - l.sum ^ 2 = 0 ↔
      ∀ x ∈ l, ∀ y ∈ l, x = y := by
  induction l with
  | nil => simp
  | cons x l ih =>
    rw [normal_det_cons]
    have h1 := normal_det_nonneg l
    have h2 : 0 ≤ (l.map (fun z => (x - z) ^ 2)).sum :=
      List.sum_nonneg (by
        intro y hy
        obtain ⟨z, -, rfl⟩ := List.mem_map.mp hy
        positivity)
    constructor
    · intro h
      have hd : (l.length : ℚ) * (l.map (fun z => z * z)).sum - l.sum ^ 2 = 0 := by linarith
      have hs : (l.map (fun z => (x - z) ^ 2)).sum = 0 := by linarith
      have hall : ∀ z ∈ l, x = z := by
        intro z hz
        have hz0 : (x - z) ^ 2 = 0 := by
          have hnn : ∀ y ∈ l.map (fun z => (x - z) ^ 2), (0 : ℚ) ≤ y := by
            intro y hy
            obtain ⟨w, -, rfl⟩ := List.mem_map.mp hy
            positivity
          exact List.all_zero_of_le_zero_le_of_sum_eq_zero hnn hs (List.mem_map.mpr ⟨z, hz, rfl⟩)
        have := pow_eq_zero_iff (two_ne_zero) |>.mp hz0
        linarith
      intro a ha c hc
      have ea : a = x := by
        rcases List.mem_cons.mp ha with h | h
        · exact h
        · exact (hall a h).symm
      have ec : c = x := by
        rcases List.mem_cons.mp hc with h | h
        · exact h
        · exact (hall c h).symm
      rw [ea, ec]
    · intro h
      have hd := ih.mpr (fun a ha c hc =>
        h a (List.mem_cons_of_mem _ ha) c (List.mem_cons_of_mem _ hc))
      have hs : (l.map (fun z => (x - z) ^ 2)).sum = 0 := by
        apply List.sum_eq_zero
        intro y hy
        obtain ⟨z, hz, rfl⟩ := List.mem_map.mp hy
        rw [h x (List.mem_cons_self _ _) z (List.mem_cons_of_mem _ hz)]
        simp
      rw [hd, hs]
      simp

theorem luEliminate_none (a00 a01 a10 a11 b0 b1 : ℚ) (h0 : a00 ≠ 0) :
    luEliminate a00 a01 a10 a11 b0 b1 = none ↔ a00 * a11 - a10 * a01 = 0 := by
  unfold luEliminate
  simp only [if_neg h0]
  have key : a11 + a10 * (-1 / a00) * a01 = (a00 * a11 - a10 * a01) / a00 := by
    field_simp
    ring
  rw [key]
  constructor
  · intro h
    by_contra hne
    rw [if_neg (div_ne_zero hne h0)] at h
    exact absurd h (by simp)
  · intro h
    rw [h, zero_div, if_pos rfl]

theorem luEliminate_some (a00 a01 a10 a11 b0 b1 x y : ℚ) (h0 : a00 ≠ 0)
    (hdet : a00 * a11 - a10 * a01 ≠ 0) (e0 : a00 * x + a01 * y = b0)
    (e1 : a10 * x + a11 * y = b1) :
    luEliminate a00 a01 a10 a11 b0 b1 = some (x, y) := by
  unfold luEliminate
  have key : a11 + a10 * (-1 / a00) * a01 = (a00 * a11 - a10 * a01) / a00 := by
    field_simp
    ring
  have hy : (b1 + a10 * (-1 / a00) * b0) / (a11 + a10 * (-1 / a00) * a01) = y := by
    rw [key, ← e0, ← e1]
    field_simp
    ring
  simp only [if_neg h0]
  rw [if_neg (by rw [key]; exact div_ne_zero hdet h0), hy]
  have hx : (b0 - a01 * y) / a00 = x := by
    rw [← e0]
    field_simp
  rw [hx]

/-- The behaviour of the normal-equation solve on the sums it forms: it fails
exactly when the determinant vanishes, and otherwise returns the solution. -/
theorem pivot_solve (a00 a01 a10 a11 b0 b1 : ℚ) :
    ((if |a00| < |a10| then luEliminate a10 a11 a00 a01 b1 b0
      else luEliminate a00 a01 a10 a11 b0 b1) = none ↔ a00 * a11 - a01 * a10 = 0) ∧
    ∀ x y, a00 * a11 - a01 * a10 ≠ 0 → a00 * x + a01 * y = b0 → a10 * x + a11 * y = b1 →
      (if |a00| < |a10| then luEliminate a10 a11 a00 a01 b1 b0
        else luEliminate a00 a01 a10 a11 b0 b1) = some (x, y) := by
  by_cases hp : |a00| < |a10|
  · have h10 : a10 ≠ 0 := by
      intro h
      rw [h, abs_zero] at hp
      exact absurd hp (not_lt.mpr (abs_nonneg _))
    simp only [if_pos hp]
    refine ⟨?_, ?_⟩
    · rw [luEliminate_none _ _ _ _ _ _ h10]
      constructor <;> intro h <;> linarith
    · intro x y hdet e0 e1
      refine luEliminate_some _ _ _ _ _ _ x y h10 ?_ e1 e0
      intro h
      apply hdet
      linarith
  · simp only [if_neg hp]
    by_cases h00 : a00 = 0
    · have h10 : a10 = 0 := by
        rw [h00, abs_zero, not_lt] at hp
        exact abs_eq_zero.mp (le_antisymm hp (abs_nonneg _))
      refine ⟨?_, ?_⟩
      · rw [h00, h10]
        simp [luEliminate]
      · intro x y hdet
        rw [h00, h10] at hdet
        simp at hdet
    · refine ⟨?_, ?_⟩
      · rw [luEliminate_none _ _ _ _ _ _ h00]
        constructor <;> intro h <;> linarith
      · intro x y hdet e0 e1
        refine luEliminate_some _ _ _ _ _ _ x y h00 ?_ e0 e1
        intro h
        apply hdet
        linarith

/-- The sums of the normal equations of the depth-model fit: the matrix is
`[[n, -sum Z], [-sum Z, sum Z^2]]`. -/
theorem fit_normal_matrix (pts : List (ℚ × Nat)) :
    (((accumulateRows pts).1.map (fun a => a.1 * a.1)).sum = (pts.length : ℚ)) ∧
    (((accumulateRows pts).1.map (fun a => a.1 * a.2)).sum = -(pts.map (fun p => p.1)).sum) ∧
    (((accumulateRows pts).1.map (fun a => a.2 * a.1)).sum = -(pts.map (fun p => p.1)).sum) ∧
    (((accumulateRows pts).1.map (fun a => a.2 * a.2)).sum =
      (pts.map (fun p => p.1 * p.1)).sum) := by
  rw [accumulateRows_eq]
  simp only [List.map_map]
  refine ⟨?_, ?_, ?_, ?_⟩
  · induction pts with
    | nil => simp
    | cons p pts ih =>
      simp only [List.map_cons, List.sum_cons, List.length_cons, ih, Function.comp]
      push_cast; ring
  · induction pts with
    | nil => simp
    | cons p pts ih =>
      simp only [List.map_cons, List.sum_cons, ih, Function.comp]
      ring
  · induction pts with
    | nil => simp
    | cons p pts ih =>
      simp only [List.map_cons, List.sum_cons, ih, Function.comp]
      ring
  · rfl

/-- The right-hand side of the normal equations for exact readings
`r = B - A/Z`. -/
theorem fit_normal_rhs (A B : ℚ) (pts : List (ℚ × Nat))
    (hexact : ∀ p ∈ pts, p.1 ≠ 0 ∧ (p.2 : ℚ) = B - A / p.1) :
    ((((accumulateRows pts).1.zip (accumulateRows pts).2).map (fun p => p.1.1 * p.2)).sum =
      (pts.length : ℚ) * A + -(pts.map (fun p => p.1)).sum * B) ∧
    ((((accumulateRows pts).1.zip (accumulateRows pts).2).map (fun p => p.1.2 * p.2)).sum =
      -(pts.map (fun p => p.1)).sum * A + (pts.map (fun p => p.1 * p.1)).sum * B) := by
  rw [accumulateRows_eq]
  simp only [List.zip_map', List.map_map]
  induction pts with
  | nil => simp
  | cons p pts ih =>
    have hp := hexact p (List.mem_cons_self _ _)
    have ih' := ih (fun q hq => hexact q (List.mem_cons_of_mem _ hq))
    have hr : p.1 * (p.2 : ℚ) = B * p.1 - A := by
      rw [hp.2]
      field_simp [hp.1]
    simp only [List.map_cons, List.sum_cons, List.length_cons, Function.comp] at ih' ⊢
    rw [ih'.1, ih'.2, hr]
    push_cast
    constructor <;> ring

theorem fit_det (pts : List (ℚ × Nat)) :
    (pts.length : ℚ) * (pts.map (fun p => p.1 * p.1)).sum -
        -(pts.map (fun p => p.1)).sum * -(pts.map (fun p => p.1)).sum =
      ((pts.map (fun p => p.1)).length : ℚ) *
          ((pts.map (fun p => p.1)).map (fun z => z * z)).sum -
        (pts.map (fun p => p.1)).sum ^ 2 := by
  rw [List.length_map, List.map_map]
  have : ((fun z : ℚ => z * z) ∘ fun p : ℚ × Nat => p.1) = fun p => p.1 * p.1 := rfl
  rw [this]
  ring

/-- C3: for exact readings `r_i = B - A/Z_i` of depths `Z_i`, all non-zero and
at least two of them distinct, the depth-model fit returns exactly `(A, B)`,
with the baseline `SHIFT_SCALE * A / f`. -/
theorem depth_fit_recovers_model (A B f : ℚ) (pts : List (ℚ × Nat))
    (hexact : ∀ p ∈ pts, p.1 ≠ 0 ∧ (p.2 : ℚ) = B - A / p.1)
    (hdistinct : ∃ p ∈ pts, ∃ q ∈ pts, p.1 ≠ q.1) :
    fitDepthModel pts f = Except.ok (A, B, SHIFT_SCALE * A / f) := by
  have hm := fit_normal_matrix pts
  have hr := fit_normal_rhs A B pts hexact
  have hdet : (pts.length : ℚ) * (pts.map (fun p => p.1 * p.1)).sum -
      -(pts.map (fun p => p.1)).sum * -(pts.map (fun p => p.1)).sum ≠ 0 := by
    rw [fit_det]
    intro h0
    obtain ⟨p, hp, q, hq, hne⟩ := hdistinct
    exact hne ((normal_det_eq_zero _).mp h0 p.1 (List.mem_map.mpr ⟨p, hp, rfl⟩) q.1
      (List.mem_map.mpr ⟨q, hq, rfl⟩))
  have hs : solveNormalLU (accumulateRows pts).1 (accumulateRows pts).2 = some (A, B) := by
    unfold solveNormalLU
    simp only []
    rw [hm.1, hm.2.1, hm.2.2.1, hm.2.2.2, hr.1, hr.2]
    exact (pivot_solve _ _ _ _ _ _).2 A B hdet rfl rfl
  unfold fitDepthModel
  rw [hs]

/-- C3, on the readings `4, 7, 8` of the depths `1, 2, 3`, exact for `A = 6`,
`B = 10`. -/
theorem depth_fit_recovers_model_witness :
    fitDepthModel [(1, 4), (2, 7), (3, 8)] 2 = Except.ok (6, 10, SHIFT_SCALE * 6 / 2) := by
  refine depth_fit_recovers_model 6 10 2 [(1, 4), (2, 7), (3, 8)] ?_ ?_
  · intro p hp
    simp only [List.mem_cons, List.mem_singleton, List.not_mem_nil, or_false] at hp
    rcases hp with rfl | rfl | rfl <;> norm_num
  · exact ⟨(1, 4), by simp, (2, 7), by simp, by norm_num⟩

/-! ## The correspondence collectors -/

/-- The IR collector runs through every file that exists and on which the
detector succeeds. -/
theorem collectIR_run {Img : Type} (imread : Nat → Option Img)
    (find : Img → Option (List Point2f)) (refine : Img → List Point2f → List Point2f)
    (pat : List Point3f) (N : Nat) :
    ∀ (fuel fnum : Nat) (acc : List (List Point3f) × List (List Point2f)),
      (∀ n < N, ∃ img cs, imread (fnum + n) = some img ∧ find img = some cs) →
      collectIR imread find refine pat (fuel + N) fnum acc =
        collectIR imread find refine pat fuel (fnum + N)
          (acc.1 ++ List.replicate N pat,
            acc.2 ++ (List.range N).map (fun n => storedIR imread find refine (fnum + n))) := by
  induction N with
  | zero => intro fuel fnum acc _; simp
  | succ N ih =>
    intro fuel fnum acc h
    obtain ⟨img, cs, himg, hcs⟩ := h 0 (Nat.succ_pos N)
    rw [Nat.add_zero] at himg
    have hstep : collectIR imread find refine pat (fuel + (N + 1)) fnum acc =
        collectIR imread find refine pat (fuel + N) (fnum + 1)
          (acc.1 ++ [pat], acc.2 ++ [storedIR imread find refine fnum]) := by
      rw [show fuel + (N + 1) = (fuel + N) + 1 by omega]
      obtain ⟨pats, points⟩ := acc
      simp only [collectIR, storedIR, himg, hcs]
    rw [hstep, ih fuel (fnum + 1) _ (by
      intro n hn
      have := h (n + 1) (by omega)
      rwa [show fnum + (n + 1) = fnum + 1 + n by omega] at this)]
    have e1 : fnum + 1 + N = fnum + (N + 1) := by omega
    have e2 : ([pat] ++ List.replicate N pat) = List.replicate (N + 1) pat := by
      rw [List.replicate_succ]; rfl
    have e3 : [storedIR imread find refine fnum] ++
        (List.range N).map (fun n => storedIR imread find refine (fnum + 1 + n)) =
        (List.range (N + 1)).map (fun n => storedIR imread find refine (fnum + n)) := by
      rw [List.range_succ_eq_map, List.map_cons, List.map_map]
      simp only [Nat.add_zero, List.singleton_append, List.cons.injEq, true_and]
      apply List.map_congr_left
      intro n _
      simp only [Function.comp, Nat.succ_eq_add_one]
      rw [show fnum + 1 + n = fnum + (n + 1) by omega]
    simp only [List.append_assoc]
    rw [e1, e2, e3]

/-- The RGB collector runs through every file that exists and on which the
detector succeeds. -/
theorem collectRGB_run {Img : Type} (imread : Nat → Option Img)
    (find : Img → Option (List Point2f)) (cvt : Img → Img)
    (refine : Img → List Point2f → List Point2f) (N : Nat) :
    ∀ (fuel fnum : Nat) (acc : List (List Point2f)),
      (∀ n < N, ∃ img cs, imread (fnum + n) = some img ∧ find img = some cs) →
      collectRGB imread find cvt refine (fuel + N) fnum acc =
        collectRGB imread find cvt refine fuel (fnum + N)
          (acc ++ (List.range N).map (fun n => storedRGB imread find cvt refine (fnum + n))) := by
  induction N with
  | zero => intro fuel fnum acc _; simp
  | succ N ih =>
    intro fuel fnum acc h
    obtain ⟨img, cs, himg, hcs⟩ := h 0 (Nat.succ_pos N)
    rw [Nat.add_zero] at himg
    have hstep : collectRGB imread find cvt refine (fuel + (N + 1)) fnum acc =
        collectRGB imread find cvt refine (fuel + N) (fnum + 1)
          (acc ++ [storedRGB imread find cvt refine fnum]) := by
      rw [show fuel + (N + 1) = (fuel + N) + 1 by omega]
      simp only [collectRGB, storedRGB, himg, hcs]
    rw [hstep, ih fuel (fnum + 1) _ (by
      intro n hn
      have := h (n + 1) (by omega)
      rwa [show fnum + (n + 1) = fnum + 1 + n by omega] at this)]
    have e1 : fnum + 1 + N = fnum + (N + 1) := by omega
    have e3 : [storedRGB imread find cvt refine fnum] ++
        (List.range N).map (fun n => storedRGB imread find cvt refine (fnum + 1 + n)) =
        (List.range (N + 1)).map (fun n => storedRGB imread find cvt refine (fnum + n)) := by
      rw [List.range_succ_eq_map, List.map_cons, List.map_map]
      simp only [Nat.add_zero, List.singleton_append, List.cons.injEq, true_and]
      apply List.map_congr_left
      intro n _
      simp only [Function.comp, Nat.succ_eq_add_one]
      rw [show fnum + 1 + n = fnum + (n + 1) by omega]
    simp only [List.append_assoc]
    rw [e1, e3]

/-- C6: the IR collector is decided by the first file number `N` at which the
file is absent or the detector fails (every earlier file exists and is
detected). If file `N` is absent the stage ends without error and has stored
exactly the `N` frames `0..N-1`, in order; if file `N` exists and detection
fails on it, `main` returns `1`. Nothing is assumed about later files. -/
theorem collector_decided_by_first_gap {Img : Type} (imread : Nat → Option Img)
    (find : Img → Option (List Point2f)) (refine : Img → List Point2f → List Point2f)
    (pat : List Point3f) (N fuel : Nat) (hfuel : N < fuel)
    (hpre : ∀ n < N, ∃ img cs, imread n = some img ∧ find img = some cs) :
    (imread N = none →
      collectIR imread find refine pat fuel 0 ([], []) =
        some (Except.ok (List.replicate N pat,
          (List.range N).map (fun n => storedIR imread find refine n))) ∧
      (List.replicate N pat).length = N ∧
      ((List.range N).map (fun n => storedIR imread find refine n)).length = N) ∧
    (∀ img, imread N = some img → find img = none →
      collectIR imread find refine pat fuel 0 ([], []) = some (Except.error 1)) := by
  obtain ⟨fuel', rfl⟩ : ∃ fuel', fuel = (fuel' + 1) + N := ⟨fuel - N - 1, by omega⟩
  have hrun := collectIR_run imread find refine pat N (fuel' + 1) 0 ([], []) (by
    intro n hn
    rw [Nat.zero_add]
    exact hpre n hn)
  simp only [Nat.zero_add, List.nil_append] at hrun
  rw [hrun]
  refine ⟨?_, ?_⟩
  · intro hN
    refine ⟨?_, by simp, by simp⟩
    simp only [collectIR, hN]
  · intro img himg hfail
    simp only [collectIR, himg, hfail]

/-- C6, on the two examples of the specification: with the files `00` to `04`
present and `05` absent the stage stores five frames; with every file present
and a detector that fails on file `03` only, `main` returns `1`. -/
theorem collector_decided_by_first_gap_witness :
    collectIR fiveFiles findAlways refineNone [(0, 0, 0)] 6 0 ([], []) =
      some (Except.ok (List.replicate 5 [(0, 0, 0)],
        (List.range 5).map (fun n => storedIR fiveFiles findAlways refineNone n))) ∧
    collectIR allFiles findNotThree refineNone [(0, 0, 0)] 4 0 ([], []) =
      some (Except.error 1) := by
  constructor
  · refine ((collector_decided_by_first_gap fiveFiles findAlways refineNone [(0, 0, 0)] 5 6
      (by norm_num) ?_).1 rfl).1
    intro n hn
    exact ⟨n, _, by simp [fiveFiles, hn], rfl⟩
  · refine (collector_decided_by_first_gap allFiles findNotThree refineNone [(0, 0, 0)] 3 4
      (by norm_num) ?_).2 3 rfl rfl
    intro n hn
    have hne : n ≠ 3 := by omega
    exact ⟨n, [((n : ℚ) + 10, 20)], rfl, by simp [findNotThree, hne]⟩

/-- C7: when both stages read `N` frames and for frame `n` the detector and the
refiner return the same raw corners in the IR stage and in the RGB stage, the
IR stage stores each raw corner `(x, y)` as `(x - 4, y - 3)` and the RGB stage
stores it as `(x, y)`. -/
theorem ir_offset_applied_once {Img : Type} (imreadIR imreadRGB : Nat → Option Img)
    (find : Img → Option (List Point2f)) (cvt : Img → Img)
    (refine : Img → List Point2f → List Point2f) (pat : List Point3f) (N fuel : Nat)
    (hfuel : N < fuel)
    (hir : ∀ n < N, ∃ img cs, imreadIR n = some img ∧ find img = some cs)
    (hirN : imreadIR N = none)
    (hrgb : ∀ n < N, ∃ img cs, imreadRGB n = some img ∧ find img = some cs)
    (hrgbN : imreadRGB N = none) :
    ∃ pats points pointsRGB,
      collectIR imreadIR find refine pat fuel 0 ([], []) = some (Except.ok (pats, points)) ∧
      collectRGB imreadRGB find cvt refine fuel 0 [] = some (Except.ok pointsRGB) ∧
      ∀ n < N, ∀ imgI csI imgR csR, imreadIR n = some imgI → find imgI = some csI →
        imreadRGB n = some imgR → find imgR = some csR →
        refine imgI csI = refine (cvt imgR) csR →
        points[n]? = some ((refine imgI csI).map (fun p => (p.1 - 4, p.2 - 3))) ∧
        pointsRGB[n]? = some (refine imgI csI) := by
  obtain ⟨fuel', rfl⟩ : ∃ fuel', fuel = (fuel' + 1) + N := ⟨fuel - N - 1, by omega⟩
  have hrunI := collectIR_run imreadIR find refine pat N (fuel' + 1) 0 ([], []) (by
    intro n hn
    rw [Nat.zero_add]
    exact hir n hn)
  have hrunR := collectRGB_run imreadRGB find cvt refine N (fuel' + 1) 0 [] (by
    intro n hn
    rw [Nat.zero_add]
    exact hrgb n hn)
  simp only [Nat.zero_add, List.nil_append] at hrunI hrunR
  refine ⟨List.replicate N pat, (List.range N).map (fun n => storedIR imreadIR find refine n),
    (List.range N).map (fun n => storedRGB imreadRGB find cvt refine n), ?_, ?_, ?_⟩
  · rw [hrunI]
    simp only [collectIR, hirN]
  · rw [hrunR]
    simp only [collectRGB, hrgbN]
  · intro n hn imgI csI imgR csR hI hcI hR hcR hsame
    constructor
    · rw [List.getElem?_map, List.getElem?_range hn]
      simp only [Option.map_some', storedIR, hI, hcI, Option.some.injEq]
      apply List.map_congr_left
      intro p _
      simp only [addOffset, ir_depth_offset, sub_eq_add_neg]
    · rw [List.getElem?_map, List.getElem?_range hn]
      simp only [Option.map_some', storedRGB, hR, hcR, Option.some.injEq]
      exact hsame.symm

/-- C7, on an example: five IR and five RGB frames with the same raw corners;
the raw corner `(12, 20)` of frame `2` is stored as `(8, 17)` by the IR stage
and as `(12, 20)` by the RGB stage. -/
theorem ir_offset_applied_once_witness :
    ∃ pats points pointsRGB,
      collectIR fiveFiles findAlways refineNone [(0, 0, 0)] 6 0 ([], []) =
        some (Except.ok (pats, points)) ∧
      collectRGB fiveFiles findAlways id refineNone 6 0 [] = some (Except.ok pointsRGB) ∧
      points[2]? = some [(8, 17)] ∧ pointsRGB[2]? = some [(12, 20)] := by
  obtain ⟨pats, points, pointsRGB, h1, h2, h3⟩ :=
    ir_offset_applied_once fiveFiles fiveFiles findAlways id refineNone [(0, 0, 0)] 5 6
      (by norm_num)
      (fun n hn => ⟨n, _, by simp [fiveFiles, hn], rfl⟩) rfl
      (fun n hn => ⟨n, _, by simp [fiveFiles, hn], rfl⟩) rfl
  have h := h3 2 (by norm_num) 2 [(12, 20)] 2 [(12, 20)] rfl
    (by norm_num [findAlways]) rfl (by norm_num [findAlways]) rfl
  refine ⟨pats, points, pointsRGB, h1, h2, ?_, ?_⟩
  · rw [h.1]
    norm_num [refineNone]
  · rw [h.2]
    rfl
/-! ## The calibration documents -/

/-- C10 (amended): an intrinsics document written by `writeCalibration` has
exactly the fields `image_width`, `image_height`, `camera_name`,
`camera_matrix`, `distortion_coefficients`, `rectification_matrix`,
`projection_matrix`, in that order; the `kinect_params` document has exactly the
fields `shift_offset`, `projector_depth_baseline`, `depth_rgb_rotation` (9
values) and `depth_rgb_translation` (3 values), in that order. -/
theorem document_fields (K D R T : Nat → ℚ) (B b : ℚ) :
    documentFields (writeCalibration K D) =
      ["image_width", "image_height", "camera_name", "camera_matrix",
        "distortion_coefficients", "rectification_matrix", "projection_matrix"] ∧
    documentFields (writeKinectParams B b R T) =
      ["shift_offset", "projector_depth_baseline", "depth_rgb_rotation",
        "depth_rgb_translation"] ∧
    fieldSizes (writeKinectParams B b R T) "depth_rgb_rotation" = [9] ∧
    fieldSizes (writeKinectParams B b R T) "depth_rgb_translation" = [3] := by
  refine ⟨?_, ?_, ?_, ?_⟩
  · simp [documentFields, writeCalibration]
  · simp [documentFields, writeKinectParams]
  · simp [fieldSizes, writeKinectParams]
  · simp [fieldSizes, writeKinectParams]

/-- C10 (as stated) fails: the intrinsics document starts with the fields
`image_width`, `image_height` and `camera_name`, which the claim excludes. -/
theorem intrinsics_document_has_header :
    documentFields (writeCalibration (fun _ => 0) (fun _ => 0)) ≠
      ["camera_matrix", "distortion_coefficients", "rectification_matrix",
        "projection_matrix"] ∧
    (documentFields (writeCalibration (fun _ => 0) (fun _ => 0))).take 3 =
      ["image_width", "image_height", "camera_name"] := by
  constructor
  · simp [documentFields, writeCalibration]
  · simp [documentFields, writeCalibration]

/-! ## The operator `Q` and the depth model -/

/-- C13: for `A ≠ 0`, `fx ≠ 0` and a raw reading `r ≠ B`, with the baseline
`b = SHIFT_SCALE * A / fx` and the disparity `d = shift2disp(r, B)`, the third
component of `Q*(px, py, d, 1)` divided by the fourth is `Z = fx*b/d = A/(B - r)`,
and `r = B - A/Z`. -/
theorem Q_inverts_depth_model (A B fx fy cx cy px py : ℚ) (r : Int) (hA : A ≠ 0)
    (hfx : fx ≠ 0) (hr : (r : ℚ) ≠ B) :
    ((matQ (cameraMatrix fx fy cx cy) (SHIFT_SCALE * A / fx)).mulVec
        ![px, py, shift2disp r B, 1]) 2 /
      ((matQ (cameraMatrix fx fy cx cy) (SHIFT_SCALE * A / fx)).mulVec
        ![px, py, shift2disp r B, 1]) 3 = A / (B - r) ∧
    fx * (SHIFT_SCALE * A / fx) / shift2disp r B = A / (B - r) ∧
    (r : ℚ) = B - A / (A / (B - r)) := by
  have hBr : B - (r : ℚ) ≠ 0 := fun h => hr (by linarith)
  refine ⟨?_, ?_, ?_⟩
  · unfold matQ cameraMatrix shift2disp SHIFT_SCALE
    simp [Matrix.mulVec, Matrix.dotProduct, Fin.sum_univ_succ]
    field_simp
    ring
  · unfold shift2disp SHIFT_SCALE
    field_simp
    ring
  · field_simp

/-- C13, for `A = 2300`, `B = 1090`, `fx = 580` and the raw reading `r = 630`:
the recovered depth is `2300 / 460 = 5`. -/
theorem Q_inverts_depth_model_witness :
    ((matQ (cameraMatrix 580 580 320 240) (SHIFT_SCALE * 2300 / 580)).mulVec
        ![10, 20, shift2disp 630 1090, 1]) 2 /
      ((matQ (cameraMatrix 580 580 320 240) (SHIFT_SCALE * 2300 / 580)).mulVec
        ![10, 20, shift2disp 630 1090, 1]) 3 = 2300 / (1090 - ((630 : Int) : ℚ)) ∧
    580 * (SHIFT_SCALE * 2300 / 580) / shift2disp 630 1090 =
      2300 / (1090 - ((630 : Int) : ℚ)) ∧
    ((630 : Int) : ℚ) = 1090 - 2300 / (2300 / (1090 - ((630 : Int) : ℚ))) :=
  Q_inverts_depth_model 2300 1090 580 580 320 240 10 20 630 (by norm_num) (by norm_num)
    (by norm_num)

/-! ## Totality of the colourisation -/

theorem depthColor_bytes (pval : Nat) :
    (depthColor pval).1 ≤ 255 ∧ (depthColor pval).2.1 ≤ 255 ∧ (depthColor pval).2.2 ≤ 255 := by
  have hlb : pval % 256 < 256 := Nat.mod_lt _ (by norm_num)
  unfold depthColor
  simp only []
  split <;> simp <;> omega

/-- C17 (amended): for every raw value below `2048` the index of the look-up in
the 2048-entry table `t_gamma` is within `0..2047`, so `setDepthColor` is
defined, and the three colour bytes it writes are each in `0..255`. -/
theorem setDepthColor_total_below_2048 (d : Nat) (h : d < 2048) :
    ∃ c, setDepthColor d = some c ∧ c.1 ≤ 255 ∧ c.2.1 ≤ 255 ∧ c.2.2 ≤ 255 := by
  refine ⟨depthColor (t_gamma d), ?_, depthColor_bytes _⟩
  simp [setDepthColor, h]

/-- C17 (amended), at the raw value `1090`: the colour written is
`(146, 0, 0)`. -/
theorem setDepthColor_total_below_2048_witness :
    ∃ c, setDepthColor 1090 = some c ∧ c.1 ≤ 255 ∧ c.2.1 ≤ 255 ∧ c.2.2 ≤ 255 :=
  setDepthColor_total_below_2048 1090 (by norm_num)

/-- C17 (as stated) fails: `2048` is a 16-bit raw value, and the look-up
`t_gamma[2048]` is past the end of the table. -/
theorem setDepthColor_undefined_at_2048 :
    (2048 : Nat) < 65536 ∧ setDepthColor 2048 = none ∧ setDepthColor 65535 = none := by
  refine ⟨by norm_num, ?_, ?_⟩ <;> simp [setDepthColor]
/-! ## Rounding to the RGB pixel -/

theorem applyD_edgeD (px py d : ℚ) :
    applyD edgeD px py d = ![px + -24 / 5 * d, py, 1] := by
  unfold applyD edgeD matD matP matS matQ cameraMatrix
  ext k
  fin_cases k <;>
    simp [Matrix.mulVec, Matrix.dotProduct, Matrix.mul_apply, Fin.sum_univ_succ]

/-- C15 fails on the code: with the transform `edgeD`, shift offset `1092` and
raw value `1090` the depth pixel `(0, 0)` has disparity `1/4` and the
perspective-divided coordinate `x = -6/5`, whose nearest pixel is
`floor(x + 1/2) = -1`; the conversion `(int)(x + 0.5)` gives `u = 0`, so the
pixel passes the bounds test and is registered at RGB index `0` although
`x < -0.5`. -/
theorem rounding_truncates_negative :
    pixelDisparity 1092 (fun _ => 1090) (0 * COLS + 0) = 1 / 4 ∧
    applyD edgeD ((0 : Nat) : ℚ) ((0 : Nat) : ℚ) (1 / 4) 0 /
      applyD edgeD ((0 : Nat) : ℚ) ((0 : Nat) : ℚ) (1 / 4) 2 = -6 / 5 ∧
    applyD edgeD ((0 : Nat) : ℚ) ((0 : Nat) : ℚ) (1 / 4) 1 /
      applyD edgeD ((0 : Nat) : ℚ) ((0 : Nat) : ℚ) (1 / 4) 2 = 0 ∧
    ⌊(-6 / 5 : ℚ) + 1 / 2⌋ = -1 ∧
    castInt ((-6 / 5 : ℚ) + 1 / 2) = some 0 ∧
    pixelTarget edgeD 1092 (fun _ => 1090) 0 0 = some (0, 4) := by
  have hd : pixelDisparity 1092 (fun _ => 1090) (0 * COLS + 0) = 1 / 4 := by
    norm_num [pixelDisparity, shift2disp, SHIFT_SCALE]
  have hu : castInt ((-6 / 5 : ℚ) + 1 / 2) = some 0 := by
    have ht : truncate ((-6 / 5 : ℚ) + 1 / 2) = 0 := by
      unfold truncate
      rw [if_neg (by norm_num), Int.ceil_eq_iff]
      norm_num
    unfold castInt
    rw [ht]
    simp [INT_MIN, INT_MAX]
  have hv : castInt ((0 : ℚ) + 1 / 2) = some 0 := by
    have := castInt_nat_add_half 0 (by norm_num)
    simpa using this
  have hdisp : castInt ((1 / 4 : ℚ) * 16 + 499 / 1000) = some 4 := by
    refine castInt_of_floor _ _ (by norm_num) ?_ (by norm_num)
    rw [Int.floor_eq_iff]
    norm_num
  have hc : setDepthColor 1090 = some (depthColor (t_gamma 1090)) := by
    simp [setDepthColor]
  refine ⟨hd, ?_, ?_, ?_, hu, ?_⟩
  · rw [applyD_edgeD]; norm_num
  · rw [applyD_edgeD]; norm_num
  · rw [Int.floor_eq_iff]; norm_num
  · unfold pixelTarget pixelSample
    simp only [hd, applyD_edgeD, Matrix.cons_val_zero, Matrix.cons_val_one, Matrix.head_cons,
      Matrix.cons_val_two, Matrix.tail_cons, one_ne_zero, if_false, hc]
    have e1 : (((0 : Nat) : ℚ) + -24 / 5 * (1 / 4)) / 1 + 1 / 2 = (-6 / 5 : ℚ) + 1 / 2 := by
      norm_num
    have e2 : ((0 : Nat) : ℚ) / 1 + 1 / 2 = (0 : ℚ) + 1 / 2 := by norm_num
    rw [e1, e2, hu, hv]
    simp only [hdisp]
    simp [COLS, ROWS]

/-! ## Bounds of the depth-model read -/

theorem cvRound_bounds (x : ℚ) : ⌊x⌋ ≤ cvRound x ∧ cvRound x ≤ ⌊x⌋ + 1 := by
  unfold cvRound
  split_ifs <;> constructor <;> omega

theorem cvRound_nonneg (x : ℚ) (h : -1 / 2 ≤ x) : 0 ≤ cvRound x := by
  by_cases h0 : 0 ≤ x
  · exact le_trans (Int.floor_nonneg.mpr h0) (cvRound_bounds x).1
  · have hfl : ⌊x⌋ = -1 := by
      rw [Int.floor_eq_iff]
      push_cast
      constructor <;> linarith [not_le.mp h0]
    unfold cvRound
    rw [hfl]
    push_cast
    split_ifs with h1 h2
    · linarith
    · norm_num
    · norm_num

/-- C16 (amended): for every corner `(x, y)` detected inside the `640 x 480` IR
image with `x ≥ 3.5` and `y ≥ 2.5`, the pixel at which the raw depth reading is
taken, the corner after the `(-4, -3)` offset converted to integer coordinates,
lies inside the `640 x 480` depth image. -/
theorem depth_read_inside (x y : ℚ) (hx : 7 / 2 ≤ x ∧ x < 640) (hy : 5 / 2 ≤ y ∧ y < 480) :
    insideImage (depthReadLocation (addOffset (x, y))) := by
  unfold insideImage depthReadLocation addOffset ir_depth_offset COLS ROWS
  simp only []
  have bx := cvRound_bounds (x + -4)
  have by' := cvRound_bounds (y + -3)
  have fx : ⌊x + -4⌋ < 636 := by
    rw [Int.floor_lt]; push_cast; linarith [hx.2]
  have fy : ⌊y + -3⌋ < 477 := by
    rw [Int.floor_lt]; push_cast; linarith [hy.2]
  refine ⟨cvRound_nonneg _ (by linarith [hx.1]), ?_, cvRound_nonneg _ (by linarith [hy.1]), ?_⟩
  · push_cast; omega
  · push_cast; omega

/-- C16 (amended), at the corner `(320.25, 240.5)`. -/
theorem depth_read_inside_witness :
    insideImage (depthReadLocation (addOffset (1281 / 4, 481 / 2))) :=
  depth_read_inside (1281 / 4) (481 / 2) (by norm_num) (by norm_num)

/-- C16 (as stated) fails: the corner `(2, 1)` lies inside the IR image, and
after the offset the raw depth reading is taken at `(-2, -2)`, outside the depth
image. -/
theorem depth_read_outside :
    ((0 : ℚ) ≤ 2 ∧ (2 : ℚ) < 640 ∧ (0 : ℚ) ≤ 1 ∧ (1 : ℚ) < 480) ∧
    depthReadLocation (addOffset (2, 1)) = (-2, -2) ∧
    ¬ insideImage (depthReadLocation (addOffset (2, 1))) := by
  have h : depthReadLocation (addOffset (2, 1)) = (-2, -2) := by
    unfold depthReadLocation addOffset ir_depth_offset cvRound
    norm_num
  refine ⟨by norm_num, h, ?_⟩
  rw [h]
  unfold insideImage
  norm_num
/-! ## The capture front-end -/

/-- C11 fails on the code: after the key `'s'`, a depth frame, an RGB frame
without a detected checkerboard, the key `'s'` again (pressed while the RGB
save is still pending) and a depth frame, an RGB frame with a detected
checkerboard leaves no save pending with `rgb_num = 1` and `depth_num = 2`. -/
theorem capture_counters_diverge :
    captureRun [CaptureEvent.key 's', CaptureEvent.depth, CaptureEvent.rgb false,
        CaptureEvent.key 's', CaptureEvent.depth, CaptureEvent.rgb true] =
      ⟨false, 0, 1, 2, false, false, false⟩ := by
  decide
/-! ## The command line -/

theorem parseOptions_append (atoi : String → Int) (atof : String → ℚ)
    (opts : List (Char × String)) (o : Char × String) (init : Int × Int × ℚ) :
    parseOptions atoi atof (opts ++ [o]) init =
      parseOptions atoi atof [o] (parseOptions atoi atof opts init) := by
  simp [parseOptions, List.foldl_append]

theorem optionValue_append (c : Char) (opts : List (Char × String)) (o : Char × String) :
    optionValue c (opts ++ [o]) = if o.1 = c then some o.2 else optionValue c opts := by
  unfold optionValue
  rw [List.filter_append]
  by_cases h : o.1 = c
  · simp [h]
  · simp [h]

/-- The values after the option loop are those of the last `-r`, `-c` and `-s`
options, and `0` for an option that does not occur. -/
theorem parseOptions_eq (atoi : String → Int) (atof : String → ℚ)
    (opts : List (Char × String)) :
    parseOptions atoi atof opts (0, 0, 0) =
      ((optionValue 'r' opts).elim 0 atoi, (optionValue 'c' opts).elim 0 atoi,
        (optionValue 's' opts).elim 0 atof) := by
  induction opts using List.reverseRecOn with
  | nil => rfl
  | append_singleton opts o ih =>
    rw [parseOptions_append, ih, optionValue_append, optionValue_append, optionValue_append]
    unfold parseOptions
    simp only [List.foldl_cons, List.foldl_nil]
    by_cases hr : o.1 = 'r'
    · have hc : ¬ o.1 = 'c' := by rw [hr]; decide
      have hs : ¬ o.1 = 's' := by rw [hr]; decide
      simp [hr, hc, hs]
    · by_cases hc : o.1 = 'c'
      · have hs : ¬ o.1 = 's' := by rw [hc]; decide
        simp [hr, hc, hs]
      · by_cases hs : o.1 = 's'
        · simp [hr, hc, hs]
        · simp [hr, hc, hs]

theorem missingOrZero_iff {α : Type} [Zero α] [DecidableEq α] (conv : String → α)
    (v : Option String) : missingOrZero conv v = true ↔ v.elim 0 conv = 0 := by
  cases v with
  | none => simp [missingOrZero]
  | some a => simp [missingOrZero]

/-- C12: if the rows value, the columns value or the square size is missing or
converts to zero, or the data directory argument is missing, the start of `main`
prints the usage text and returns `1`, whatever the image files are (none is
read); otherwise the arguments are accepted and nothing is printed. -/
theorem usage_exit_iff (atoi : String → Int) (atof : String → ℚ) (cl : CommandLine) :
    ((missingOrZero atoi (optionValue 'r' cl.opts) = true ∨
        missingOrZero atoi (optionValue 'c' cl.opts) = true ∨
        missingOrZero atof (optionValue 's' cl.opts) = true ∨ cl.rest = []) →
      checkArguments atoi atof cl = (usageText cl.program, Except.error 1) ∧
      ∀ (Img : Type) (imread : String → Nat → Option Img)
        (find : Int → Int → Img → Option (List Point2f))
        (refine : Img → List Point2f → List Point2f) (fuel : Nat),
        mainCollectIR atoi atof cl imread find refine fuel =
          (usageText cl.program, some (Except.error 1))) ∧
    (¬ (missingOrZero atoi (optionValue 'r' cl.opts) = true ∨
        missingOrZero atoi (optionValue 'c' cl.opts) = true ∨
        missingOrZero atof (optionValue 's' cl.opts) = true ∨ cl.rest = []) →
      ∃ a, checkArguments atoi atof cl = ([], Except.ok a)) := by
  have hp := parseOptions_eq atoi atof cl.opts
  simp only [missingOrZero_iff]
  constructor
  · intro h
    have hc : checkArguments atoi atof cl = (usageText cl.program, Except.error 1) := by
      unfold checkArguments
      simp only [hp]
      cases hrest : cl.rest with
      | nil => rfl
      | cons d ds =>
        simp only [List.head?_cons]
        rw [if_pos]
        rcases h with h | h | h | h
        · exact Or.inl h
        · exact Or.inr (Or.inl h)
        · exact Or.inr (Or.inr h)
        · rw [hrest] at h; exact absurd h (by simp)
    refine ⟨hc, ?_⟩
    intro Img imread find refine fuel
    unfold mainCollectIR
    rw [hc]
  · intro h
    push_neg at h
    unfold checkArguments
    simp only [hp]
    cases hrest : cl.rest with
    | nil => exact absurd hrest h.2.2.2
    | cons d ds =>
      simp only [List.head?_cons]
      rw [if_neg (by
        rintro (h1 | h1 | h1)
        · exact h.1 h1
        · exact h.2.1 h1
        · exact h.2.2.1 h1)]
      exact ⟨_, rfl⟩
/-! ## The z-buffer invariant -/

theorem maxDisparity_nonneg (D : Matrix (Fin 3) (Fin 4) ℚ) (B : ℚ) (dptr : Nat → Nat)
    (ps : List (Nat × Nat)) (kk : Nat) : 0 ≤ maxDisparity D B dptr ps kk := by
  unfold maxDisparity
  induction disparitiesAt D B dptr ps kk with
  | nil => simp
  | cons x l ih => simp only [List.foldr_cons]; exact le_max_of_le_right ih

theorem targetAt_some (kk : Nat) (t : Option (Nat × Int)) (disp : Int) :
    targetAt kk t = some disp ↔ t = some (kk, disp) := by
  unfold targetAt
  cases t with
  | none => simp
  | some x =>
    obtain ⟨kk', d'⟩ := x
    by_cases h : kk' = kk
    · simp [h]
    · simp [h]

theorem maxDisparity_cons (D : Matrix (Fin 3) (Fin 4) ℚ) (B : ℚ) (dptr : Nat → Nat)
    (p : Nat × Nat) (ps : List (Nat × Nat)) (kk : Nat) :
    maxDisparity D B dptr (p :: ps) kk =
      match targetAt kk (pixelTarget D B dptr p.1 p.2) with
      | some disp => max disp (maxDisparity D B dptr ps kk)
      | none => maxDisparity D B dptr ps kk := by
  unfold maxDisparity disparitiesAt
  cases h : targetAt kk (pixelTarget D B dptr p.1 p.2) with
  | none => simp [List.filterMap_cons, h]
  | some disp => simp [List.filterMap_cons, h]

/-- One store, when the disparity it may write at `kk` fits in 16 bits, leaves
at `kk` the maximum of the stored value and that disparity. -/
theorem storeSample_max (rgbptr : Nat → Colour) (k : Nat) (d : ℚ) (s : PixelSample)
    (st : WarpImages) (kk : Nat)
    (hfit : ∀ disp, s.target = some (kk, disp) → disp < 65536) :
    ((storeSample rgbptr k d s st).imgr kk : Int) =
      match targetAt kk s.target with
      | some disp => max (st.imgr kk : Int) disp
      | none => (st.imgr kk : Int) := by
  cases h : targetAt kk s.target with
  | none =>
    simp only []
    rw [(storeSample_keep rgbptr k d s st kk (by
      intro disp ht
      rw [← targetAt_some] at ht
      rw [h] at ht
      exact absurd ht (by simp))).1]
  | some disp =>
    simp only []
    have ht := (targetAt_some kk s.target disp).mp h
    by_cases hlt : (st.imgr kk : Int) < disp
    · rw [(storeSample_write rgbptr k d s st kk disp ht hlt).1]
      have h0 : (0 : Int) ≤ disp := le_trans (Int.natCast_nonneg _) hlt.le
      rw [Int.emod_eq_of_lt h0 (hfit disp ht), Int.toNat_of_nonneg h0, max_eq_right hlt.le]
    · rw [(storeSample_keep rgbptr k d s st kk (by
        intro disp' ht'
        rw [ht] at ht'
        simp only [Option.some.injEq, Prod.mk.injEq, true_and] at ht'
        rw [← ht']
        exact not_lt.mp hlt)).1, max_eq_left (not_lt.mp hlt)]

/-- After the warp of a list of pixels whose fixed-point disparities at `kk` fit
in 16 bits, the value stored at `kk` is the maximum of the value stored before
and of those disparities. -/
theorem warpPixels_max (D : Matrix (Fin 3) (Fin 4) ℚ) (B : ℚ) (dptr : Nat → Nat)
    (rgbptr : Nat → Colour) (kk : Nat) (ps : List (Nat × Nat)) :
    ∀ (st st' : WarpImages), warpPixels D B dptr rgbptr ps st = some st' →
      (∀ p ∈ ps, ∀ disp, pixelTarget D B dptr p.1 p.2 = some (kk, disp) → disp < 65536) →
      (st'.imgr kk : Int) = max (st.imgr kk : Int) (maxDisparity D B dptr ps kk) := by
  induction ps with
  | nil =>
    intro st st' h _
    rw [warpPixels_nil] at h
    cases h
    have : maxDisparity D B dptr [] kk = 0 := rfl
    rw [this, max_eq_left (Int.natCast_nonneg _)]
  | cons p ps ih =>
    intro st st' h hfit
    rw [warpPixels_cons] at h
    cases h1 : warpPixel D B dptr rgbptr p.1 p.2 st with
    | none => rw [h1] at h; exact absurd h (by simp)
    | some st1 =>
      rw [h1] at h
      obtain ⟨s, hs, rfl⟩ := warpPixel_some D B dptr rgbptr p.1 p.2 st st1 h1
      have htg := pixelTarget_of_sample D B dptr p.1 p.2 s hs
      have hstep := storeSample_max rgbptr (p.1 * COLS + p.2)
        (pixelDisparity B dptr (p.1 * COLS + p.2)) s st kk (by
          intro disp ht
          exact hfit p (List.mem_cons_self _ _) disp (by rw [htg, ht]))
      have hrest := ih _ st' h (fun q hq => hfit q (List.mem_cons_of_mem _ hq))
      rw [hrest, hstep, maxDisparity_cons, htg]
      cases targetAt kk s.target with
      | none => rfl
      | some disp => simp only []; rw [max_assoc]

theorem take_split (l : List (Nat × Nat)) (n m : Nat) (h : n ≤ m) :
    l.take m = l.take n ++ (l.take m).drop n := by
  have := List.take_append_drop n (l.take m)
  rw [List.take_take, Nat.min_eq_left h] at this
  exact this.symm

/-- C14: after every initial part of the raster scan of a frame (the first `n`
pixels, and later the first `m ≥ n` pixels), provided the fixed-point
disparities of the pixels visited fit in 16 bits, the value stored in the
RGB-frame disparity image at each RGB index `kk` is the maximum of the
fixed-point disparities of the depth pixels visited so far that map to `kk`, and
`0` when none does; and the stored value does not decrease from the first `n`
to the first `m` pixels. -/
theorem zbuffer_holds_maximum (D : Matrix (Fin 3) (Fin 4) ℚ) (B : ℚ) (dptr : Nat → Nat)
    (rgbptr : Nat → Colour) (n m : Nat) (stn stm : WarpImages) (hnm : n ≤ m)
    (hn : warpPixels D B dptr rgbptr (rasterOrder.take n) zeroImages = some stn)
    (hm : warpPixels D B dptr rgbptr (rasterOrder.take m) zeroImages = some stm)
    (hfit : ∀ p ∈ rasterOrder.take m, ∀ kk disp,
      pixelTarget D B dptr p.1 p.2 = some (kk, disp) → disp < 65536) (kk : Nat) :
    (stn.imgr kk : Int) = maxDisparity D B dptr (rasterOrder.take n) kk ∧
    (stm.imgr kk : Int) = maxDisparity D B dptr (rasterOrder.take m) kk ∧
    stn.imgr kk ≤ stm.imgr kk := by
  have hsplit := take_split rasterOrder n m hnm
  have hfitn : ∀ p ∈ rasterOrder.take n, ∀ disp,
      pixelTarget D B dptr p.1 p.2 = some (kk, disp) → disp < 65536 := by
    intro p hp disp ht
    refine hfit p ?_ kk disp ht
    rw [hsplit]
    exact List.mem_append_left _ hp
  have h0 : ((zeroImages.imgr kk : Nat) : Int) = 0 := rfl
  have e1 := warpPixels_max D B dptr rgbptr kk _ zeroImages stn hn hfitn
  have e2 := warpPixels_max D B dptr rgbptr kk _ zeroImages stm hm
    (fun p hp disp ht => hfit p hp kk disp ht)
  rw [h0, max_eq_right (maxDisparity_nonneg _ _ _ _ _)] at e1 e2
  refine ⟨e1, e2, ?_⟩
  rw [hsplit, warpPixels_append, hn, Option.some_bind] at hm
  have := warpPixels_ge D B dptr rgbptr kk (stn.imgr kk : Int) _ stn stm hm (by
    intro p hp disp ht
    refine hfit p ?_ kk disp ht
    rw [hsplit]
    exact List.mem_append_right _ hp) (le_refl _)
  exact_mod_cast this

/-- C14, on an example frame (shift offset `1090.1`, raw value `1089`
everywhere, the disparity-independent transform): after the first `3` and after
the first `5` pixels of the scan the value stored at RGB index `1` is the
maximum of the fixed-point disparities of the pixels visited that map to it. -/
theorem zbuffer_holds_maximum_witness :
    ∃ stn stm,
      warpPixels tieD exampleB (flatDepth 1089 1089) exampleRgb (rasterOrder.take 3)
        zeroImages = some stn ∧
      warpPixels tieD exampleB (flatDepth 1089 1089) exampleRgb (rasterOrder.take 5)
        zeroImages = some stm ∧
      (stn.imgr 1 : Int) =
        maxDisparity tieD exampleB (flatDepth 1089 1089) (rasterOrder.take 3) 1 ∧
      (stm.imgr 1 : Int) =
        maxDisparity tieD exampleB (flatDepth 1089 1089) (rasterOrder.take 5) 1 ∧
      stn.imgr 1 ≤ stm.imgr 1 := by
  have hraw : ∀ j, flatDepth 1089 1089 j = 1089 := by
    intro j; unfold flatDepth; split_ifs <;> rfl
  have e : ∀ j, j < 5 → pixelSample tieD exampleB (flatDepth 1089 1089) 0 j =
      some ⟨depthColor (t_gamma 1089), some ((j + 2) / 4, 2)⟩ := by
    intro j hj
    exact flat_sample exampleB 1089 1089 j 1089 2 hj (hraw j) (by norm_num [exampleB])
      (by norm_num) (by rw [Int.floor_eq_iff]; norm_num [exampleB]) (by norm_num)
  obtain ⟨post, hpost⟩ := rasterOrder_start
  have h5 : rasterOrder.take 5 = [(0, 0), (0, 1), (0, 2), (0, 3), (0, 4)] := by
    rw [hpost]; rfl
  have h3 : rasterOrder.take 3 = [(0, 0), (0, 1), (0, 2)] := by
    rw [hpost]; rfl
  have hmem : ∀ p ∈ rasterOrder.take 5, ∃ j, j < 5 ∧ p = (0, j) := by
    intro p hp
    rw [h5] at hp
    simp only [List.mem_cons, List.mem_singleton, List.not_mem_nil, or_false] at hp
    rcases hp with rfl | rfl | rfl | rfl | rfl
    · exact ⟨0, by norm_num, rfl⟩
    · exact ⟨1, by norm_num, rfl⟩
    · exact ⟨2, by norm_num, rfl⟩
    · exact ⟨3, by norm_num, rfl⟩
    · exact ⟨4, by norm_num, rfl⟩
  have hdef : ∀ p ∈ rasterOrder.take 5,
      ∃ s, pixelSample tieD exampleB (flatDepth 1089 1089) p.1 p.2 = some s := by
    intro p hp
    obtain ⟨j, hj, rfl⟩ := hmem p hp
    exact ⟨_, e j hj⟩
  obtain ⟨stm, hm⟩ := warpPixels_defined tieD exampleB (flatDepth 1089 1089) exampleRgb
    (rasterOrder.take 5) zeroImages hdef
  obtain ⟨stn, hn⟩ := warpPixels_defined tieD exampleB (flatDepth 1089 1089) exampleRgb
    (rasterOrder.take 3) zeroImages (by
      intro p hp
      refine hdef p ?_
      rw [take_split rasterOrder 3 5 (by norm_num)]
      exact List.mem_append_left _ hp)
  exact ⟨stn, stm, hn, hm,
    zbuffer_holds_maximum tieD exampleB (flatDepth 1089 1089) exampleRgb 3 5 stn stm
      (by norm_num) hn hm (by
        intro p hp kk disp ht
        obtain ⟨j, hj, rfl⟩ := hmem p hp
        rw [pixelTarget_of_sample _ _ _ _ _ _ (e j hj)] at ht
        simp only [Option.some.injEq, Prod.mk.injEq] at ht
        omega) 1⟩

end Calibrate
